import Mathlib

/-!
Verification of the notebook manipulation library (src/schema/notebook.py and
src/tools/notebook.py): a shallow embedding of the pydantic data model, its
JSON parse/serialize helpers, and the cell CRUD / conversion operations,
together with proofs settling the specification claims.

Python strings are modelled as lists of characters (`PyStr`); a JSON value
(the result of json.loads) is the inductive `Json`, with object fields kept
as an association list in key order.  Machine-level details that no claim
touches (Unicode case folding beyond ASCII, floating point JSON numbers,
pydantic's implicit numeric coercions) are outside the embedding: parsing is
strict on field types.
-/

/-- A Python string, as a list of characters. -/
abbrev PyStr := List Char

/-- Shorthand for writing `PyStr` literals. -/
def pys (s : String) : PyStr := s.toList

/-- Python's `s.split('\n')`: always at least one piece; the empty string
gives `[""]`. -/
def splitNl : List Char → List (List Char)
  | [] => [[]]
  | c :: rest =>
    if c = '\n' then [] :: splitNl rest
    else
      match splitNl rest with
      | [] => [[c]]
      | l :: ls => (c :: l) :: ls

/-- Python's `''.join(xs)`. -/
def joinAll (xs : List PyStr) : PyStr := xs.flatten

/-- A JSON value as produced by `json.loads` (object keys are unique in the
loaded dict; floats are not used by any claim and are not modelled). -/
inductive Json where
  | null
  | bool (b : Bool)
  | int (n : Int)
  | str (s : PyStr)
  | arr (elems : List Json)
  | obj (fields : List (String × Json))

/-- First-occurrence key lookup in a JSON object (Python dict access). -/
def lookupJ : List (String × Json) → String → Option Json
  | [], _ => none
  | (k', v) :: rest, k => if k' = k then some v else lookupJ rest k

/-- Lookup defaulting absent keys to `null`: a field that is absent and a
field that is explicitly `null` are given the same semantic reading. -/
def lookupD (kvs : List (String × Json)) (k : String) : Json :=
  (lookupJ kvs k).getD .null

/-- Semantic equality of JSON values: arrays must agree pointwise, objects
must agree on every key, with absent keys read as `null` (so key order is
ignored and a field omitted because it is absent/null is ignored). -/
inductive SemEq : Json → Json → Prop where
  | null : SemEq .null .null
  | bool (b : Bool) : SemEq (.bool b) (.bool b)
  | int (n : Int) : SemEq (.int n) (.int n)
  | str (s : PyStr) : SemEq (.str s) (.str s)
  | arr {xs ys : List Json} : List.Forall₂ SemEq xs ys → SemEq (.arr xs) (.arr ys)
  | obj {a b : List (String × Json)} :
      (∀ k, SemEq (lookupD a k) (lookupD b k)) → SemEq (.obj a) (.obj b)

mutual

/-- Semantic equality is reflexive. -/
def semEq_refl : (v : Json) → SemEq v v
  | .null => .null
  | .bool b => .bool b
  | .int n => .int n
  | .str s => .str s
  | .arr xs => .arr (semEq_refl_list xs)
  | .obj kvs => .obj (fun k => semEq_refl_lookup kvs k)
termination_by v => sizeOf v

def semEq_refl_list : (xs : List Json) → List.Forall₂ SemEq xs xs
  | [] => .nil
  | x :: xs => .cons (semEq_refl x) (semEq_refl_list xs)
termination_by xs => sizeOf xs

def semEq_refl_lookup : (kvs : List (String × Json)) → (k : String) →
    SemEq (lookupD kvs k) (lookupD kvs k)
  | [], _ => .null
  | (k', v) :: rest, k => by
    unfold lookupD lookupJ
    by_cases h : k' = k
    · simpa [h] using semEq_refl v
    · simpa [h] using semEq_refl_lookup rest k
termination_by kvs _ => sizeOf kvs

end

/-! ## The pydantic data model (src/schema/notebook.py)

`Cell`, `NotebookMetadata` and `Notebook` declare `extra = "allow"`, so
unknown keys are captured in an `extra` list; `CellOutput` has no such
config, so pydantic's default applies and unknown keys are ignored. -/

/-- `cell_type: Literal['code', 'markdown', 'raw']`. -/
inductive CellType where
  | code
  | markdown
  | raw
deriving DecidableEq

def cellTypeStr : CellType → PyStr
  | .code => pys "code"
  | .markdown => pys "markdown"
  | .raw => pys "raw"

/-- `source: Union[str, List[str]]`. -/
inductive Source where
  | str (s : PyStr)
  | list (ls : List PyStr)
deriving DecidableEq

/-- Python truthiness of a source value (`if cell.source:`). -/
def Source.truthy : Source → Bool
  | .str s => !s.isEmpty
  | .list ls => !ls.isEmpty

/-- The source text: a string as itself, a list joined with `''.join`. -/
def Source.text : Source → PyStr
  | .str s => s
  | .list ls => joinAll ls

/-- `CellOutput` (no `extra = "allow"`: unknown keys are dropped on parse).
`metadata` defaults to `{}` when absent, but is `None` when explicitly
`null`. -/
structure CellOutputM where
  output_type : PyStr
  metadata : Option (List (String × Json)) := some []
  data : Option (List (String × Json)) := none
  text : Option Source := none
  execution_count : Option Int := none
  traceback : Option (List PyStr) := none
  name : Option PyStr := none
  ename : Option PyStr := none
  evalue : Option PyStr := none

/-- `Cell` (extra keys preserved in `extra`). -/
structure CellM where
  cell_type : CellType
  metadata : List (String × Json) := []
  source : Source
  outputs : Option (List CellOutputM) := none
  execution_count : Option Int := none
  extra : List (String × Json) := []

/-- `NotebookMetadata` (extra keys preserved in `extra`). -/
structure NbMetaM where
  kernelspec : Option (List (String × Json)) := none
  language_info : Option (List (String × Json)) := none
  authors : Option (List (List (String × PyStr))) := none
  title : Option PyStr := none
  description : Option PyStr := none
  tags : Option (List PyStr) := none
  extra : List (String × Json) := []

/-- `Notebook` (extra keys preserved in `extra`). -/
structure NotebookM where
  cells : List CellM := []
  metadata : NbMetaM := {}
  nbformat : Int := 4
  nbformat_minor : Int := 5
  extra : List (String × Json) := []

/-! ## Parsing (notebook_from_json) -/

def asStr : Json → Option PyStr
  | .str s => some s
  | _ => none

def asInt : Json → Option Int
  | .int n => some n
  | _ => none

def asObj : Json → Option (List (String × Json))
  | .obj kvs => some kvs
  | _ => none

/-- Parse every element of a list, failing if any element fails. -/
def parseList (f : Json → Option α) : List Json → Option (List α)
  | [] => some []
  | e :: es =>
    match f e, parseList f es with
    | some a, some as' => some (a :: as')
    | _, _ => none

def asStrList : Json → Option (List PyStr)
  | .arr es => parseList asStr es
  | _ => none

def asSource : Json → Option Source
  | .str s => some (.str s)
  | .arr es => (parseList asStr es).map .list
  | _ => none

def isNullJ : Json → Bool
  | .null => true
  | _ => false

/-- An optional pydantic field with default `None`: absent or `null` parses
to `none`; a present value must parse with `f`. -/
def optNullable (kvs : List (String × Json)) (k : String) (f : Json → Option α) :
    Option (Option α) :=
  match lookupJ kvs k with
  | none => some none
  | some v => if isNullJ v then some none else (f v).map some

/-- The keys a model recognizes; everything else is an extra field. -/
def extraFields (kvs : List (String × Json)) (known : List String) :
    List (String × Json) :=
  kvs.filter (fun kv => decide (kv.1 ∉ known))

def knownOutputKeys : List String :=
  ["output_type", "metadata", "data", "text", "execution_count",
   "traceback", "name", "ename", "evalue"]

def knownCellKeys : List String :=
  ["cell_type", "metadata", "source", "outputs", "execution_count"]

def knownMetaKeys : List String :=
  ["kernelspec", "language_info", "authors", "title", "description", "tags"]

def knownNotebookKeys : List String :=
  ["cells", "metadata", "nbformat", "nbformat_minor"]

def parseCellType : Json → Option CellType
  | .str s =>
    if s = pys "code" then some .code
    else if s = pys "markdown" then some .markdown
    else if s = pys "raw" then some .raw
    else none
  | _ => none

def parseOutput (j : Json) : Option CellOutputM := do
  let kvs ← asObj j
  let ot ← (lookupJ kvs "output_type").bind asStr
  let md ← (match lookupJ kvs "metadata" with
            | none => some (some [])
            | some v => if isNullJ v then some none else (asObj v).map some)
  let dt ← optNullable kvs "data" asObj
  let tx ← optNullable kvs "text" asSource
  let ec ← optNullable kvs "execution_count" asInt
  let tb ← optNullable kvs "traceback" asStrList
  let nm ← optNullable kvs "name" asStr
  let en ← optNullable kvs "ename" asStr
  let ev ← optNullable kvs "evalue" asStr
  some { output_type := ot, metadata := md, data := dt, text := tx,
         execution_count := ec, traceback := tb, name := nm, ename := en,
         evalue := ev }

def parseCell (j : Json) : Option CellM := do
  let kvs ← asObj j
  let ct ← (lookupJ kvs "cell_type").bind parseCellType
  let md ← (match lookupJ kvs "metadata" with
            | none => some []
            | some v => asObj v)
  let src ← (lookupJ kvs "source").bind asSource
  let outs ← optNullable kvs "outputs"
    (fun v => match v with
              | .arr es => parseList parseOutput es
              | _ => none)
  let ec ← optNullable kvs "execution_count" asInt
  some { cell_type := ct, metadata := md, source := src, outputs := outs,
         execution_count := ec, extra := extraFields kvs knownCellKeys }

def parseAuthor (j : Json) : Option (List (String × PyStr)) := do
  let kvs ← asObj j
  kvs.foldr (fun (k, v) acc => do
    let s ← asStr v
    let rest ← acc
    some ((k, s) :: rest)) (some [])

def parseMeta (j : Json) : Option NbMetaM := do
  let kvs ← asObj j
  let ks ← optNullable kvs "kernelspec" asObj
  let li ← optNullable kvs "language_info" asObj
  let au ← optNullable kvs "authors"
    (fun v => match v with
              | .arr es => parseList parseAuthor es
              | _ => none)
  let ti ← optNullable kvs "title" asStr
  let de ← optNullable kvs "description" asStr
  let tg ← optNullable kvs "tags" asStrList
  some { kernelspec := ks, language_info := li, authors := au, title := ti,
         description := de, tags := tg,
         extra := extraFields kvs knownMetaKeys }

/-- The error taxonomy of the specification.  The Python code raises
`ValueError` at every failure site; the spec classifies those sites as
`FormatError` (bad JSON / schema), `RangeError` (index out of bounds,
including the "notebook has no cells" guards, for which every index is out
of bounds), `InvalidArgumentError` (enum value outside the allowed set) and
`UnsupportedFormatError` (unknown export target). -/
inductive NbError where
  | formatError
  | rangeError
  | invalidArgument
  | unsupportedFormat
deriving DecidableEq

/-- `notebook_from_json` / `Notebook.parse_obj` on a loaded JSON value. -/
def parseNotebook (j : Json) : Option NotebookM := do
  let kvs ← asObj j
  let cells ← (match lookupJ kvs "cells" with
               | none => some []
               | some (.arr es) => parseList parseCell es
               | some _ => none)
  let md ← (match lookupJ kvs "metadata" with
            | none => some {}
            | some v => parseMeta v)
  let nf ← (match lookupJ kvs "nbformat" with
            | none => some 4
            | some v => asInt v)
  let nfm ← (match lookupJ kvs "nbformat_minor" with
             | none => some 5
             | some v => asInt v)
  some { cells := cells, metadata := md, nbformat := nf,
         nbformat_minor := nfm, extra := extraFields kvs knownNotebookKeys }

/-- `notebook_from_json`: malformed input is a `FormatError`. -/
def notebook_from_jsonM (j : Json) : Except NbError NotebookM :=
  match parseNotebook j with
  | some nb => .ok nb
  | none => .error .formatError

/-! ## Serialization (notebook_to_json = json.dumps(nb.dict(exclude_none=True))) -/

def optEntry (k : String) : Option Json → List (String × Json)
  | none => []
  | some v => [(k, v)]

def sourceToJson : Source → Json
  | .str s => .str s
  | .list ls => .arr (ls.map .str)

/-- `exclude_none=True` also drops extra fields whose value is `None`. -/
def nonNullExtras (kvs : List (String × Json)) : List (String × Json) :=
  kvs.filter (fun kv => !isNullJ kv.2)

def serializeOutputFields (o : CellOutputM) : List (String × Json) :=
  [("output_type", .str o.output_type)]
    ++ optEntry "metadata" (o.metadata.map .obj)
    ++ optEntry "data" (o.data.map .obj)
    ++ optEntry "text" (o.text.map sourceToJson)
    ++ optEntry "execution_count" (o.execution_count.map .int)
    ++ optEntry "traceback" (o.traceback.map (fun ts => .arr (ts.map .str)))
    ++ optEntry "name" (o.name.map .str)
    ++ optEntry "ename" (o.ename.map .str)
    ++ optEntry "evalue" (o.evalue.map .str)

def serializeOutput (o : CellOutputM) : Json :=
  .obj (serializeOutputFields o)

def serializeCellFields (c : CellM) : List (String × Json) :=
  [("cell_type", .str (cellTypeStr c.cell_type)),
   ("metadata", .obj c.metadata),
   ("source", sourceToJson c.source)]
    ++ optEntry "outputs" (c.outputs.map (fun os => .arr (os.map serializeOutput)))
    ++ optEntry "execution_count" (c.execution_count.map .int)
    ++ nonNullExtras c.extra

def serializeCell (c : CellM) : Json :=
  .obj (serializeCellFields c)

def serializeAuthor (a : List (String × PyStr)) : Json :=
  .obj (a.map (fun kv => (kv.1, .str kv.2)))

def serializeMetaFields (m : NbMetaM) : List (String × Json) :=
  optEntry "kernelspec" (m.kernelspec.map .obj)
    ++ optEntry "language_info" (m.language_info.map .obj)
    ++ optEntry "authors" (m.authors.map (fun as' => .arr (as'.map serializeAuthor)))
    ++ optEntry "title" (m.title.map .str)
    ++ optEntry "description" (m.description.map .str)
    ++ optEntry "tags" (m.tags.map (fun ts => .arr (ts.map .str)))
    ++ nonNullExtras m.extra

def serializeMeta (m : NbMetaM) : Json :=
  .obj (serializeMetaFields m)

def notebookFields (nb : NotebookM) : List (String × Json) :=
  [("cells", .arr (nb.cells.map serializeCell)),
   ("metadata", serializeMeta nb.metadata),
   ("nbformat", .int nb.nbformat),
   ("nbformat_minor", .int nb.nbformat_minor)]
    ++ nonNullExtras nb.extra

/-- `notebook_to_json`: the dict produced by `dict(exclude_none=True)`
(the JSON text layer — indentation, key quoting — is abstracted away). -/
def notebook_to_jsonM (nb : NotebookM) : Json :=
  .obj (notebookFields nb)

/-! ## Cell operations (src/tools/notebook.py)

Each Python operation parses the notebook JSON, validates, mutates an
in-memory copy and reserializes.  The `...M` functions below are the
post-parse cores; the `...J` wrappers add the parse/serialize round trip. -/

def allowedCellTypes : List PyStr := [pys "code", pys "markdown", pys "raw"]

/-- `edit_cell`: index check first, then the content update
(`source = new_content.split('\n')`), then the optional type change, which
clears outputs/execution_count only when switching to markdown or raw. -/
def withCells (nb : NotebookM) (cs : List CellM) : NotebookM :=
  { nb with cells := cs }

/-- `notebook.cells[i].source = new_content.split('\n')`. -/
def contentEdited (c0 : CellM) (new_content : PyStr) : CellM :=
  { c0 with source := .list (splitNl new_content) }

def withCellType (c : CellM) (ct : CellType) : CellM :=
  { c with cell_type := ct }

/-- Clearing `outputs` / `execution_count` when switching to markdown/raw. -/
def clearedRunFields (c : CellM) : CellM :=
  { c with outputs := some [], execution_count := none }

def edit_cellM (nb : NotebookM) (cell_index : Int) (new_content : PyStr)
    (cell_type : Option PyStr) : Except NbError NotebookM :=
  if cell_index < 0 ∨ cell_index ≥ nb.cells.length then .error .rangeError
  else
    match nb.cells[cell_index.toNat]? with
    | none => .error .rangeError
    | some c0 =>
      match cell_type with
      | none =>
        .ok (withCells nb (nb.cells.set cell_index.toNat (contentEdited c0 new_content)))
      | some t =>
        if t ∉ allowedCellTypes then .error .invalidArgument
        else
          match parseCellType (.str t) with
          | none => .error .invalidArgument
          | some ct =>
            if t = pys "markdown" ∨ t = pys "raw" then
              .ok (withCells nb (nb.cells.set cell_index.toNat
                (clearedRunFields (withCellType (contentEdited c0 new_content) ct))))
            else
              .ok (withCells nb (nb.cells.set cell_index.toNat
                (withCellType (contentEdited c0 new_content) ct)))

/-- The fresh cell built by `create_cell` / `insert_cell`: the given type
and metadata, `source = content.split('\n')`, and for code cells
`outputs = []`, `execution_count = None`. -/
def newCellOf (ct : CellType) (content : PyStr)
    (metadata : Option (List (String × Json))) : CellM :=
  if ct = .code then
    { cell_type := ct, metadata := metadata.getD [],
      source := .list (splitNl content), outputs := some [],
      execution_count := none }
  else
    { cell_type := ct, metadata := metadata.getD [],
      source := .list (splitNl content) }

/-- `create_cell`: validate the type, append a fresh cell; code cells get
`outputs = []` and `execution_count = None`. -/
def create_cellM (nb : NotebookM) (content : PyStr) (cell_type : PyStr)
    (metadata : Option (List (String × Json))) : Except NbError NotebookM :=
  if cell_type ∉ allowedCellTypes then .error .invalidArgument
  else
    match parseCellType (.str cell_type) with
    | none => .error .invalidArgument
    | some ct =>
      .ok (withCells nb (nb.cells ++ [newCellOf ct content metadata]))

/-- Python's `list.insert(p, x)` for `0 ≤ p ≤ len`. -/
def pyInsert (l : List α) (p : Nat) (a : α) : List α :=
  l.take p ++ a :: l.drop p

/-- `insert_cell`: the cell type is validated before the position. -/
def insert_cellM (nb : NotebookM) (position : Int) (content : PyStr)
    (cell_type : PyStr) (metadata : Option (List (String × Json))) :
    Except NbError NotebookM :=
  if cell_type ∉ allowedCellTypes then .error .invalidArgument
  else
    match parseCellType (.str cell_type) with
    | none => .error .invalidArgument
    | some ct =>
      if position < 0 ∨ position > nb.cells.length then .error .rangeError
      else
        .ok (withCells nb (pyInsert nb.cells position.toNat (newCellOf ct content metadata)))

/-- The source-accumulation loop of `merge_cells`: a `'\n'` element is
appended whenever the accumulated list is non-empty and the next cell's
source is truthy; a list source is flattened, a string source appended as
one unit. -/
def mergeStep (acc : List PyStr) (s : Source) : List PyStr :=
  (if !acc.isEmpty ∧ s.truthy then acc ++ [pys "\n"] else acc)
    ++ (match s with
        | .list xs => xs
        | .str t => [t])

def mergeFold (srcs : List Source) : List PyStr :=
  srcs.foldl mergeStep []

/-- The merged cell: first cell's type and metadata, the folded source,
fresh extras, and code-cell defaults when the first cell is code. -/
def mergedCellOf (first : CellM) (rest : List CellM) : CellM :=
  if first.cell_type = .code then
    { cell_type := first.cell_type, metadata := first.metadata,
      source := .list (mergeFold ((first :: rest).map (·.source))),
      outputs := some [], execution_count := none }
  else
    { cell_type := first.cell_type, metadata := first.metadata,
      source := .list (mergeFold ((first :: rest).map (·.source))) }

/-- `merge_cells`: validate, slice `cells[start:end+1]`, fold sources,
build the merged cell (first cell's type and metadata; fresh extras), and
splice it back in place of the slice. -/
def merge_cellsM (nb : NotebookM) (start_index end_index : Int) :
    Except NbError NotebookM :=
  if nb.cells.isEmpty then .error .rangeError
  else if start_index < 0 ∨ start_index ≥ (nb.cells.length : Int) then .error .rangeError
  else if end_index < start_index ∨ end_index ≥ (nb.cells.length : Int) then .error .rangeError
  else
    match (nb.cells.drop start_index.toNat).take (end_index.toNat - start_index.toNat + 1) with
    | [] => .error .rangeError
    | first :: rest =>
      .ok (withCells nb (nb.cells.take start_index.toNat
              ++ mergedCellOf first rest
              :: nb.cells.drop (end_index.toNat + 1)))

/-- Python's simultaneous `l[i], l[j] = l[j], l[i]`: both reads happen
before either write (identity on indices out of range, which the operation
rules out beforehand). -/
def swapList (l : List α) (i j : Nat) : List α :=
  match l[i]?, l[j]? with
  | some a, some b => (l.set i b).set j a
  | _, _ => l

/-- `swap_cells`: simultaneous assignment from the original list. -/
def swap_cellsM (nb : NotebookM) (index1 index2 : Int) :
    Except NbError NotebookM :=
  if nb.cells.isEmpty then .error .rangeError
  else
    if index1 < 0 ∨ index1 ≥ (nb.cells.length : Int) ∨ index2 < 0 ∨ index2 ≥ (nb.cells.length : Int) then .error .rangeError
    else
      .ok (withCells nb (swapList nb.cells index1.toNat index2.toNat))

/-- `extract_code_from_notebook`: collect each code cell's joined source. -/
def extract_codeGo : List CellM → List PyStr
  | [] => []
  | c :: rest =>
    if c.cell_type = .code then c.source.text :: extract_codeGo rest
    else extract_codeGo rest

def extract_code_from_notebookM (nb : NotebookM) : List PyStr :=
  extract_codeGo nb.cells

/-! ## JSON-level wrappers -/

def edit_cellJ (j : Json) (cell_index : Int) (new_content : PyStr)
    (cell_type : Option PyStr) : Except NbError Json := do
  let nb ← notebook_from_jsonM j
  let nb ← edit_cellM nb cell_index new_content cell_type
  pure (notebook_to_jsonM nb)

def create_cellJ (j : Json) (content : PyStr) (cell_type : PyStr)
    (metadata : Option (List (String × Json))) : Except NbError Json := do
  let nb ← notebook_from_jsonM j
  let nb ← create_cellM nb content cell_type metadata
  pure (notebook_to_jsonM nb)

def insert_cellJ (j : Json) (position : Int) (content : PyStr)
    (cell_type : PyStr) (metadata : Option (List (String × Json))) :
    Except NbError Json := do
  let nb ← notebook_from_jsonM j
  let nb ← insert_cellM nb position content cell_type metadata
  pure (notebook_to_jsonM nb)

def merge_cellsJ (j : Json) (start_index end_index : Int) : Except NbError Json := do
  let nb ← notebook_from_jsonM j
  let nb ← merge_cellsM nb start_index end_index
  pure (notebook_to_jsonM nb)

def swap_cellsJ (j : Json) (index1 index2 : Int) : Except NbError Json := do
  let nb ← notebook_from_jsonM j
  let nb ← swap_cellsM nb index1 index2
  pure (notebook_to_jsonM nb)

def extract_code_from_notebookJ (j : Json) : Except NbError (List PyStr) := do
  let nb ← notebook_from_jsonM j
  pure (extract_code_from_notebookM nb)

/-! ## Format conversion (convert_notebook_to_format / _to_executable)

The nbconvert exporter is an external collaborator; it is passed in as an
explicit `render` function.  `convert_notebook_to_executable` converts
first and only then writes, so a conversion failure produces no write; the
performed write (if any) is returned as an explicit `(path, content)`
effect value. -/

def supportedFormats : List PyStr :=
  [pys "python", pys "html", pys "markdown", pys "rst", pys "latex",
   pys "pdf", pys "slides"]

/-- Python's `str.lower()` (ASCII case folding suffices here). -/
def pyLower (s : PyStr) : PyStr := s.map Char.toLower

def convert_notebook_to_formatM (render : PyStr → NotebookM → PyStr)
    (j : Json) (output_format : PyStr) : Except NbError PyStr :=
  match notebook_from_jsonM j with
  | .error e => .error e
  | .ok nb =>
    if pyLower output_format ∈ supportedFormats then
      .ok (render (pyLower output_format) nb)
    else
      .error .unsupportedFormat

def convert_notebook_to_executableM (render : PyStr → NotebookM → PyStr)
    (j : Json) (output_format : PyStr) (output_path : Option PyStr) :
    Except NbError (PyStr × Option (PyStr × PyStr)) :=
  match convert_notebook_to_formatM render j output_format with
  | .error e => .error e
  | .ok out => .ok (out, output_path.map (fun p => (p, out)))

/-! ## Basic lemmas about the string helpers -/

theorem splitNl_ne_nil (cs : List Char) : splitNl cs ≠ [] := by
  cases cs with
  | nil => simp [splitNl]
  | cons c rest =>
    simp only [splitNl]
    by_cases h : c = '\n'
    · simp [h]
    · simp only [h, if_false]
      cases hr : splitNl rest <;> simp

theorem joinAll_splitNl (cs : List Char) :
    joinAll (splitNl cs) = cs.filter (fun c => c ≠ '\n') := by
  induction cs with
  | nil => simp [splitNl, joinAll]
  | cons c rest ih =>
    simp only [splitNl]
    by_cases h : c = '\n'
    · subst h
      simpa [joinAll] using ih
    · cases hr : splitNl rest with
      | nil => exact absurd hr (splitNl_ne_nil rest)
      | cons l ls =>
        rw [hr] at ih
        simp only [h, if_false, hr]
        simp only [joinAll, List.flatten_cons] at ih ⊢
        simp [h, ih]

theorem joinAll_splitNl_ne (cs : List Char) (h : '\n' ∈ cs) :
    joinAll (splitNl cs) ≠ cs := by
  rw [joinAll_splitNl]
  intro heq
  have hmem : '\n' ∈ cs.filter (fun c => c ≠ '\n') := by rw [heq]; exact h
  have := List.of_mem_filter hmem
  simp at this

/-- C10: whenever edit_cell, create_cell, or insert_cell receives string
content, the stored source is exactly `content.split('\n')` (the empty
string giving `[""]`), so joining the stored lines with the empty separator
— as extract_code_from_notebook does — deletes the original line breaks:
the join equals the original text with every newline removed, which differs
from the original whenever the content had a line break. -/
theorem c10_source_split_newline_loss :
    (∀ (nb nb' : NotebookM) (i : Int) (c : PyStr) (t : Option PyStr),
        edit_cellM nb i c t = .ok nb' →
        (nb'.cells[i.toNat]?).map (·.source) = some (.list (splitNl c)))
  ∧ (∀ (nb nb' : NotebookM) (c : PyStr) (t : PyStr) m,
        create_cellM nb c t m = .ok nb' →
        (nb'.cells.getLast?).map (·.source) = some (.list (splitNl c)))
  ∧ (∀ (nb nb' : NotebookM) (p : Int) (c : PyStr) (t : PyStr) m,
        insert_cellM nb p c t m = .ok nb' →
        (nb'.cells[p.toNat]?).map (·.source) = some (.list (splitNl c)))
  ∧ splitNl [] = [[]]
  ∧ (∀ cs : PyStr, joinAll (splitNl cs) = cs.filter (fun c => c ≠ '\n'))
  ∧ (∀ cs : PyStr, '\n' ∈ cs → joinAll (splitNl cs) ≠ cs) := by
  refine ⟨?_, ?_, ?_, rfl, joinAll_splitNl, joinAll_splitNl_ne⟩
  · intro nb nb' i c t h
    unfold edit_cellM at h
    split at h
    · simp at h
    · rename_i hrange
      have hi : i.toNat < nb.cells.length := by
        push_neg at hrange
        omega
      split at h
      · simp at h
      · split at h
        · cases h
          simp [withCells, contentEdited, List.getElem?_set_eq_of_lt _ hi]
        · split at h
          · simp at h
          · split at h
            · simp at h
            · split at h <;>
              · cases h
                simp [withCells, contentEdited, withCellType, clearedRunFields,
                      List.getElem?_set_eq_of_lt _ hi]
  · intro nb nb' c t m h
    unfold create_cellM at h
    split at h
    · simp at h
    · split at h
      · simp at h
      · cases h
        simp only [withCells, List.getLast?_concat, Option.map_some']
        unfold newCellOf
        split <;> rfl
  · intro nb nb' p c t m h
    unfold insert_cellM at h
    split at h
    · simp at h
    · split at h
      · simp at h
      · split at h
        · simp at h
        · rename_i hrange
          have hp : p.toNat ≤ nb.cells.length := by
            push_neg at hrange
            omega
          cases h
          simp only [withCells, pyInsert]
          rw [List.getElem?_append_right (by simp), List.length_take,
              Nat.min_eq_left hp, Nat.sub_self]
          simp only [List.getElem?_cons_zero, Option.map_some']
          unfold newCellOf
          split <;> rfl

/-! ## C9: extract_code -/

theorem extract_codeGo_eq (cs : List CellM) :
    extract_codeGo cs
      = (cs.filter (fun c => c.cell_type = .code)).map (fun c => c.source.text) := by
  induction cs with
  | nil => rfl
  | cons c rest ih =>
    simp only [extract_codeGo]
    by_cases h : c.cell_type = .code <;> simp [h, ih, List.filter_cons]

def cellMd (s : String) : CellM :=
  { cell_type := .markdown, source := .str (pys s) }

def cellCode (s : String) : CellM :=
  { cell_type := .code, source := .str (pys s), outputs := some [] }

def nbC9 : NotebookM :=
  { cells := [cellMd "intro", cellCode "a=1", cellCode "b=2", cellMd "outro"] }

/-- C9: extract_code returns the ordered sequence of each code cell's
joined source text, in cell order, excluding markdown and raw cells; it is
empty when there is no code cell; and on [markdown, code "a=1",
code "b=2", markdown] it returns exactly ["a=1", "b=2"]. -/
theorem c9_extract_code_order :
    (∀ nb : NotebookM, extract_code_from_notebookM nb
        = (nb.cells.filter (fun c => c.cell_type = .code)).map (fun c => c.source.text))
  ∧ (∀ nb : NotebookM, (∀ c ∈ nb.cells, c.cell_type ≠ .code) →
        extract_code_from_notebookM nb = [])
  ∧ extract_code_from_notebookM nbC9 = [pys "a=1", pys "b=2"] := by
  refine ⟨fun nb => extract_codeGo_eq nb.cells, ?_, by rfl⟩
  intro nb h
  unfold extract_code_from_notebookM
  rw [extract_codeGo_eq]
  have hnil : nb.cells.filter (fun c => c.cell_type = .code) = [] := by
    rw [List.filter_eq_nil_iff]
    intro c hc
    simpa using h c hc
  simp [hnil]

/-- C9 witness: a concrete application of the no-code-cells conjunct. -/
theorem c9_extract_code_order_witness :
    extract_code_from_notebookM { cells := [cellMd "only text"] } = [] :=
  c9_extract_code_order.2.1 _ (by decide)

/-! ## C4: index validation -/

/-- C4: edit, insert, merge and swap each fail with RangeError for every
index outside the valid range (for insert, a position outside
[0, cell_count]); no transformed notebook is returned in that case (the
result is the error, with no ok payload). -/
theorem c4_index_validation :
    (∀ (nb : NotebookM) (i : Int) (c : PyStr) (t : Option PyStr),
        (i < 0 ∨ i ≥ nb.cells.length) → edit_cellM nb i c t = .error .rangeError)
  ∧ (∀ (nb : NotebookM) (p : Int) (c : PyStr) (t : PyStr)
        (m : Option (List (String × Json))),
        t ∈ allowedCellTypes → (p < 0 ∨ p > nb.cells.length) →
        insert_cellM nb p c t m = .error .rangeError)
  ∧ (∀ (nb : NotebookM) (s e : Int),
        (s < 0 ∨ s ≥ nb.cells.length ∨ e < 0 ∨ e ≥ nb.cells.length) →
        merge_cellsM nb s e = .error .rangeError)
  ∧ (∀ (nb : NotebookM) (i j : Int),
        (i < 0 ∨ i ≥ nb.cells.length ∨ j < 0 ∨ j ≥ nb.cells.length) →
        swap_cellsM nb i j = .error .rangeError) := by
  refine ⟨?_, ?_, ?_, ?_⟩
  · intro nb i c t h
    unfold edit_cellM
    rw [if_pos h]
  · intro nb p c t m ht h
    simp [allowedCellTypes] at ht
    unfold insert_cellM
    rcases ht with rfl | rfl | rfl <;>
    · rw [if_neg (by decide)]
      split
      · rename_i heq
        exact absurd heq (by decide)
      · rw [if_pos h]
  · intro nb s e h
    unfold merge_cellsM
    by_cases hemp : nb.cells.isEmpty
    · rw [if_pos hemp]
    · rw [if_neg hemp]
      have hlen : 0 < nb.cells.length := by
        cases nbc : nb.cells with
        | nil => rw [nbc] at hemp; simp at hemp
        | cons a l => simp [nbc]
      by_cases hs : s < 0 ∨ s ≥ (nb.cells.length : Int)
      · rw [if_pos hs]
      · rw [if_neg hs]
        have he : e < s ∨ e ≥ (nb.cells.length : Int) := by
          push_neg at hs
          omega
        rw [if_pos he]
  · intro nb i j h
    unfold swap_cellsM
    by_cases hemp : nb.cells.isEmpty
    · rw [if_pos hemp]
    · rw [if_neg hemp, if_pos h]

def nbW : NotebookM := { cells := [cellCode "x"] }

/-- C4 witness: every boundary value (−1, cell_count, and cell_count+1 for
insert) on a one-cell notebook. -/
theorem c4_index_validation_witness :
    (edit_cellM nbW (-1) [] none = .error .rangeError
      ∧ edit_cellM nbW 1 [] none = .error .rangeError)
  ∧ (insert_cellM nbW (-1) [] (pys "code") none = .error .rangeError
      ∧ insert_cellM nbW 2 [] (pys "code") none = .error .rangeError)
  ∧ (merge_cellsM nbW (-1) 0 = .error .rangeError
      ∧ merge_cellsM nbW 0 1 = .error .rangeError)
  ∧ (swap_cellsM nbW (-1) 0 = .error .rangeError
      ∧ swap_cellsM nbW 0 1 = .error .rangeError) :=
  ⟨⟨c4_index_validation.1 nbW (-1) [] none (by decide),
    c4_index_validation.1 nbW 1 [] none (by decide)⟩,
   ⟨c4_index_validation.2.1 nbW (-1) [] (pys "code") none (by decide) (by decide),
    c4_index_validation.2.1 nbW 2 [] (pys "code") none (by decide) (by decide)⟩,
   ⟨c4_index_validation.2.2.1 nbW (-1) 0 (by decide),
    c4_index_validation.2.2.1 nbW 0 1 (by decide)⟩,
   ⟨c4_index_validation.2.2.2 nbW (-1) 0 (by decide),
    c4_index_validation.2.2.2 nbW 0 1 (by decide)⟩⟩

/-! ## C2: execution_count on edit -/

def nbC2 : NotebookM :=
  { cells := [{ cell_type := .code, source := .str (pys "x"),
                outputs := some [], execution_count := some 5 }] }

/-- C2 counterexample: editing the content of a code cell (no type change)
leaves the stale execution_count of 5 in place, where the claim requires it
to be reset to absent. -/
theorem c2_counterexample :
    (edit_cellM nbC2 0 (pys "y") none).map (fun nb => nb.cells.map (·.execution_count))
        = .ok [some 5]
    ∧ (some (5 : Int)) ≠ none := by
  exact ⟨by rfl, by simp⟩

/-- C2 amended: edit_cell resets the edited cell's execution_count (to
absent) and outputs (to empty) only when the cell type is switched to
markdown or raw; a content-only edit, and an edit keeping/setting type
code, leave both the cell's execution_count and its outputs unchanged. -/
theorem c2_amended_execution_count :
    (∀ (nb nb' : NotebookM) (i : Int) (c : PyStr),
        edit_cellM nb i c none = .ok nb' →
        (nb'.cells[i.toNat]?).map (fun cl => (cl.outputs, cl.execution_count))
          = (nb.cells[i.toNat]?).map (fun cl => (cl.outputs, cl.execution_count)))
  ∧ (∀ (nb nb' : NotebookM) (i : Int) (c : PyStr),
        edit_cellM nb i c (some (pys "code")) = .ok nb' →
        (nb'.cells[i.toNat]?).map (fun cl => (cl.outputs, cl.execution_count))
          = (nb.cells[i.toNat]?).map (fun cl => (cl.outputs, cl.execution_count)))
  ∧ (∀ (nb nb' : NotebookM) (i : Int) (c : PyStr) (t : PyStr),
        (t = pys "markdown" ∨ t = pys "raw") →
        edit_cellM nb i c (some t) = .ok nb' →
        (nb'.cells[i.toNat]?).map (fun cl => (cl.outputs, cl.execution_count))
          = some (some [], none)) := by
  refine ⟨?_, ?_, ?_⟩
  · intro nb nb' i c h
    unfold edit_cellM at h
    split at h
    · simp at h
    · rename_i hrange
      have hi : i.toNat < nb.cells.length := by
        push_neg at hrange
        omega
      split at h
      · simp at h
      · rename_i c0 hc0
        cases h
        simp [withCells, contentEdited, List.getElem?_set_eq_of_lt _ hi, hc0]
  · intro nb nb' i c h
    unfold edit_cellM at h
    split at h
    · simp at h
    · rename_i hrange
      have hi : i.toNat < nb.cells.length := by
        push_neg at hrange
        omega
      split at h
      · simp at h
      · rename_i c0 hc0
        split at h
        · rename_i heq
          simp at heq
        · rename_i t' heq
          cases heq
          split at h
          · rename_i hmem
            exact absurd (by decide) hmem
          · split at h
            · rename_i hpct
              exact absurd hpct (by decide)
            · rename_i ct hpct
              split at h
              · rename_i hcond
                exact absurd hcond (by decide)
              · cases h
                simp [withCells, contentEdited, withCellType,
                      List.getElem?_set_eq_of_lt _ hi, hc0]
  · intro nb nb' i c t ht h
    unfold edit_cellM at h
    split at h
    · simp at h
    · rename_i hrange
      have hi : i.toNat < nb.cells.length := by
        push_neg at hrange
        omega
      split at h
      · simp at h
      · split at h
        · rename_i heq
          simp at heq
        · rename_i t' heq
          cases heq
          split at h
          · simp at h
          · split at h
            · simp at h
            · cases h
              simp [withCells, contentEdited, withCellType, clearedRunFields,
                    List.getElem?_set_self hi]

def nbC2b : NotebookM :=
  { cells := [{ cell_type := .code, source := .str (pys "x"),
                outputs := some [{ output_type := pys "stream" }],
                execution_count := some 7 }] }

/-- C2 amended witness: on a code cell with one output and count 7, a
content-only edit and an edit setting type code both keep the outputs and
the count; switching the same cell to markdown empties the outputs and
clears the count. -/
theorem c2_amended_execution_count_witness :
    ((edit_cellM nbC2b 0 (pys "y") none).map
        (fun nb => nb.cells.map (fun cl => (cl.outputs, cl.execution_count)))
      = .ok [(some [{ output_type := pys "stream" }], some 7)])
    ∧ ((edit_cellM nbC2b 0 (pys "y") (some (pys "code"))).map
        (fun nb => nb.cells.map (fun cl => (cl.outputs, cl.execution_count)))
      = .ok [(some [{ output_type := pys "stream" }], some 7)])
    ∧ ((edit_cellM nbC2b 0 (pys "y") (some (pys "markdown"))).map
        (fun nb => nb.cells.map (fun cl => (cl.outputs, cl.execution_count)))
      = .ok [(some [], none)]) := by
  refine ⟨?_, ?_, ?_⟩
  · have h1 : edit_cellM nbC2b 0 (pys "y") none
        = .ok (withCells nbC2b (nbC2b.cells.set 0 (contentEdited nbC2b.cells[0] (pys "y")))) := by
      rfl
    have := c2_amended_execution_count.1 nbC2b _ 0 (pys "y") h1
    rw [h1]
    simp only [Except.map, this]
    rfl
  · have h2 : edit_cellM nbC2b 0 (pys "y") (some (pys "code"))
        = .ok (withCells nbC2b (nbC2b.cells.set 0
            (withCellType (contentEdited nbC2b.cells[0] (pys "y")) .code))) := by
      rfl
    have := c2_amended_execution_count.2.1 nbC2b _ 0 (pys "y") h2
    rw [h2]
    simp only [Except.map, this]
    rfl
  · have h3 : edit_cellM nbC2b 0 (pys "y") (some (pys "markdown"))
        = .ok (withCells nbC2b (nbC2b.cells.set 0
            (clearedRunFields (withCellType (contentEdited nbC2b.cells[0] (pys "y")) .markdown)))) := by
      rfl
    have := c2_amended_execution_count.2.2 nbC2b _ 0 (pys "y") (pys "markdown") (Or.inl rfl) h3
    rw [h3]
    simp only [Except.map, this]
    rfl

/-! ## C8: swap involution -/

theorem swapList_length (l : List α) (i j : Nat) :
    (swapList l i j).length = l.length := by
  unfold swapList
  split <;> simp

theorem set_getElem_id (l : List α) (i : Nat) (h : i < l.length) :
    l.set i l[i] = l := by
  apply List.ext_getElem?
  intro m
  by_cases hmi : m = i
  · subst hmi
    rw [List.getElem?_set_self h, List.getElem?_eq_getElem h]
  · rw [List.getElem?_set_ne (fun hc => hmi hc.symm)]

theorem swapList_eq (l : List α) (i j : Nat)
    (hi : i < l.length) (hj : j < l.length) :
    swapList l i j = (l.set i l[j]).set j l[i] := by
  unfold swapList
  rw [List.getElem?_eq_getElem hi, List.getElem?_eq_getElem hj]

theorem swapList_swapList (l : List α) (i j : Nat)
    (hi : i < l.length) (hj : j < l.length) :
    swapList (swapList l i j) i j = l := by
  by_cases hij : i = j
  · subst hij
    have e1 : swapList l i i = l := by
      rw [swapList_eq l i i hi hi, set_getElem_id l i hi, set_getElem_id l i hi]
    rw [e1, e1]
  · have hlen : ((l.set i l[j]).set j l[i]).length = l.length := by simp
    have hi' : i < ((l.set i l[j]).set j l[i]).length := by rw [hlen]; exact hi
    have hj' : j < ((l.set i l[j]).set j l[i]).length := by rw [hlen]; exact hj
    rw [swapList_eq l i j hi hj, swapList_eq _ i j hi' hj']
    have hgi : ((l.set i l[j]).set j l[i])[i] = l[j] := by
      rw [List.getElem_set_ne (fun hc => hij hc.symm)]
      exact List.getElem_set_self (by simpa using hi)
    have hgj : ((l.set i l[j]).set j l[i])[j] = l[i] :=
      List.getElem_set_self (by simpa using hj)
    rw [hgi, hgj]
    apply List.ext_getElem?
    intro m
    by_cases hmj : m = j
    · subst hmj
      rw [List.getElem?_set_self (by simpa using hj), List.getElem?_eq_getElem hj]
    · rw [List.getElem?_set_ne (fun hc => hmj hc.symm)]
      by_cases hmi : m = i
      · subst hmi
        rw [List.getElem?_set_self (by simpa using hi),
            List.getElem?_eq_getElem hi]
      · rw [List.getElem?_set_ne (fun hc => hmi hc.symm),
            List.getElem?_set_ne (fun hc => hmj hc.symm),
            List.getElem?_set_ne (fun hc => hmi hc.symm)]

/-- C8: swapping the same two valid indices twice restores the original
notebook. -/
theorem c8_swap_involution (nb nb' : NotebookM) (i j : Int)
    (h : swap_cellsM nb i j = .ok nb') : swap_cellsM nb' i j = .ok nb := by
  unfold swap_cellsM at h ⊢
  split at h
  · simp at h
  · rename_i hemp
    split at h
    · simp at h
    · rename_i hrange
      cases h
      push_neg at hrange
      obtain ⟨hi0, hiLen, hj0, hjLen⟩ := hrange
      have hi : i.toNat < nb.cells.length := by omega
      have hj : j.toNat < nb.cells.length := by omega
      have hlen : (withCells nb (swapList nb.cells i.toNat j.toNat)).cells.length
          = nb.cells.length := by
        simp [withCells, swapList_length]
      rw [if_neg (by
        simp only [List.isEmpty_iff_length_eq_zero, hlen]
        omega)]
      rw [if_neg (by
        rw [hlen]
        push_neg
        exact ⟨hi0, hiLen, hj0, hjLen⟩)]
      have : swapList (withCells nb (swapList nb.cells i.toNat j.toNat)).cells i.toNat j.toNat
          = nb.cells := by
        simp only [withCells]
        exact swapList_swapList nb.cells i.toNat j.toNat hi hj
      rw [this]
      rfl

/-- C8 witness: a concrete double swap. -/
theorem c8_swap_involution_witness :
    swap_cellsM (withCells nbC9 (swapList nbC9.cells 1 3)) 1 3 = .ok nbC9 :=
  c8_swap_involution nbC9 _ 1 3 (by rfl)

/-! ## C3: merge_cells source rule -/

/-- Modelled from the claim's words (C3): the concatenation of each merged
cell's source text, joined with a newline separator between non-empty
sources (empty sources contribute nothing and trigger no separator). -/
def claimMergeText (srcs : List Source) : PyStr :=
  srcs.foldl (fun acc s =>
    if !acc.isEmpty ∧ !s.text.isEmpty then acc ++ '\n' :: s.text
    else acc ++ s.text) []

/-- Whether a source appends at least one element to the accumulated list in
the merge loop: a string source always does (even the empty string), a list
source only when non-empty. -/
def srcContributes : Source → Bool
  | .str _ => true
  | .list ls => !ls.isEmpty

/-- The separator rule the code implements, on joined text: state is (text
so far, whether any element was accumulated); a newline separates a truthy
source from previously accumulated content — where an empty string source
counts as accumulated content, and an empty list source does not. -/
def mergeSpecStep (st : PyStr × Bool) (s : Source) : PyStr × Bool :=
  ((if st.2 && s.truthy then st.1 ++ '\n' :: s.text else st.1 ++ s.text),
   st.2 || srcContributes s)

def mergeSpecText (srcs : List Source) : PyStr :=
  (srcs.foldl mergeSpecStep ([], false)).1

theorem mergeStep_spec (acc : List PyStr) (s : Source) :
    (joinAll (mergeStep acc s), !(mergeStep acc s).isEmpty)
      = mergeSpecStep (joinAll acc, !acc.isEmpty) s := by
  unfold mergeStep mergeSpecStep
  cases s with
  | str t =>
    by_cases hac : acc.isEmpty
    · have : acc = [] := List.isEmpty_iff.mp hac
      subst this
      simp [Source.truthy, Source.text, joinAll, srcContributes]
    · by_cases ht : t.isEmpty
      · have : t = [] := List.isEmpty_iff.mp ht
        subst this
        simp [hac, Source.truthy, Source.text, joinAll, srcContributes]
      · simp [hac, ht, Source.truthy, Source.text, joinAll, srcContributes, pys]
  | list ls =>
    by_cases hac : acc.isEmpty
    · have : acc = [] := List.isEmpty_iff.mp hac
      subst this
      by_cases hls : ls.isEmpty
      · have : ls = [] := List.isEmpty_iff.mp hls
        subst this
        simp [Source.truthy, Source.text, joinAll, srcContributes]
      · simp [hls, Source.truthy, Source.text, joinAll, srcContributes]
    · by_cases hls : ls.isEmpty
      · have : ls = [] := List.isEmpty_iff.mp hls
        subst this
        simp [hac, Source.truthy, Source.text, joinAll, srcContributes]
      · simp [hac, hls, Source.truthy, Source.text, joinAll, srcContributes, pys,
              List.isEmpty_iff]

theorem mergeFold_spec_aux (srcs : List Source) (acc : List PyStr) :
    (joinAll (srcs.foldl mergeStep acc), !(srcs.foldl mergeStep acc).isEmpty)
      = srcs.foldl mergeSpecStep (joinAll acc, !acc.isEmpty) := by
  induction srcs generalizing acc with
  | nil => rfl
  | cons s rest ih =>
    simp only [List.foldl_cons]
    rw [ih (mergeStep acc s), mergeStep_spec]

theorem mergeFold_spec (srcs : List Source) :
    joinAll (mergeFold srcs) = mergeSpecText srcs := by
  have h := mergeFold_spec_aux srcs []
  unfold mergeFold mergeSpecText
  exact congrArg Prod.fst h

theorem mergedCellOf_cell_type (first : CellM) (rest : List CellM) :
    (mergedCellOf first rest).cell_type = first.cell_type := by
  unfold mergedCellOf
  split <;> rfl

theorem mergedCellOf_source (first : CellM) (rest : List CellM) :
    (mergedCellOf first rest).source
      = .list (mergeFold ((first :: rest).map (·.source))) := by
  unfold mergedCellOf
  split <;> rfl

def nbC3 : NotebookM :=
  { cells := [{ cell_type := .code, source := .str [] },
              { cell_type := .code, source := .str (pys "x") }] }

/-- C3 counterexample: merging a cell whose string source is the empty
string with a following non-empty cell produces the joined text "\nx" —
the loop appended the empty string as an accumulated element, so the next
cell still gets a separator — while the claim's rule (newline separator
between non-empty sources only) gives "x". -/
theorem c3_merge_counterexample :
    (merge_cellsM nbC3 0 1).map (fun nb => nb.cells.map (fun c => c.source.text))
        = .ok [pys "\nx"]
    ∧ claimMergeText [Source.str [], Source.str (pys "x")] = pys "x"
    ∧ pys "\nx" ≠ pys "x" := by
  refine ⟨by rfl, by rfl, by decide⟩

/-- C3 amended: merge replaces cells[start..end] by one cell carrying the
first merged cell's type, and the merged source's joined text concatenates
the cells' source texts with a newline inserted before each truthy source
once any element has accumulated — an empty string source accumulates an
(empty) element, an empty list source accumulates nothing
(`mergeSpecText`). -/
theorem c3_merge_amended (nb : NotebookM) (s e : Int)
    (h0 : 0 ≤ s) (h1 : s ≤ e) (h2 : e < nb.cells.length) :
    ∃ merged : CellM,
      merge_cellsM nb s e
        = .ok (withCells nb
            (nb.cells.take s.toNat ++ merged :: nb.cells.drop (e.toNat + 1)))
      ∧ (nb.cells[s.toNat]?).map (·.cell_type) = some merged.cell_type
      ∧ merged.source.text
          = mergeSpecText
              (((nb.cells.drop s.toNat).take (e.toNat - s.toNat + 1)).map (·.source)) := by
  have hlen : 0 < nb.cells.length := by omega
  have hemp : ¬nb.cells.isEmpty := by
    intro hx
    rw [List.isEmpty_iff.mp hx] at hlen
    simp at hlen
  have hs : ¬(s < 0 ∨ s ≥ (nb.cells.length : Int)) := by omega
  have he : ¬(e < s ∨ e ≥ (nb.cells.length : Int)) := by omega
  have hsl : 0 < ((nb.cells.drop s.toNat).take (e.toNat - s.toNat + 1)).length := by
    rw [List.length_take, List.length_drop]
    apply lt_min
    · omega
    · omega
  unfold merge_cellsM
  rw [if_neg hemp, if_neg hs, if_neg he]
  cases hslice : (nb.cells.drop s.toNat).take (e.toNat - s.toNat + 1) with
  | nil =>
    rw [hslice] at hsl
    simp at hsl
  | cons first rest =>
    refine ⟨mergedCellOf first rest, rfl, ?_, ?_⟩
    · have hhead : nb.cells[s.toNat]? = some first := by
        have h3 : ((nb.cells.drop s.toNat).take (e.toNat - s.toNat + 1)).head? = some first := by
          rw [hslice]
          rfl
        rw [List.head?_take, List.head?_drop] at h3
        · cases h4 : nb.cells[s.toNat]? with
          | none => rw [h4] at h3; simp at h3
          | some c => rw [h4] at h3; simpa using h3
      rw [hhead, mergedCellOf_cell_type]
      rfl
    · rw [mergedCellOf_source]
      show joinAll (mergeFold ((first :: rest).map (·.source))) = _
      rw [← hslice, mergeFold_spec]

def nbC3w : NotebookM :=
  { cells := [cellMd "m0", cellCode "b", cellCode "c", cellCode "d", cellMd "m4"] }

/-- C3 amended witness: the spec's 5-cell example, merging cells 1..3. -/
theorem c3_merge_amended_witness :
    ∃ merged : CellM,
      merge_cellsM nbC3w 1 3
        = .ok (withCells nbC3w
            (nbC3w.cells.take 1 ++ merged :: nbC3w.cells.drop 4))
      ∧ (nbC3w.cells[(1 : Nat)]?).map (·.cell_type) = some merged.cell_type
      ∧ merged.source.text
          = mergeSpecText (((nbC3w.cells.drop 1).take 3).map (·.source)) :=
  c3_merge_amended nbC3w 1 3 (by decide) (by decide) (by decide)

/-! ## C6: create-code serialized defaults -/

/-- The last cell of the serialized notebook, read for its "outputs" and
"execution_count" fields (absent keys read as null — the serializer's
exclude_none convention). -/
def lastCellRunFields (y : Json) : Option (Json × Json) :=
  match y with
  | .obj kvs =>
    match lookupJ kvs "cells" with
    | some (.arr cs) =>
      match cs.getLast? with
      | some (.obj ckvs) => some (lookupD ckvs "outputs", lookupD ckvs "execution_count")
      | _ => none
    | _ => none
  | _ => none

/-- C6: create with cell_type "code" appends a cell whose serialized form
carries outputs == [] and execution_count == null: the count is None in the
model and exclude_none omits it, so the serialized field reads as null. -/
theorem c6_create_code_defaults (x : Json) (nb : NotebookM) (content : PyStr)
    (m : Option (List (String × Json)))
    (hp : notebook_from_jsonM x = .ok nb) :
    (create_cellJ x content (pys "code") m).map lastCellRunFields
      = .ok (some (.arr [], .null)) := by
  have hstep : create_cellJ x content (pys "code") m
      = .ok (notebook_to_jsonM (withCells nb (nb.cells ++ [newCellOf .code content m]))) := by
    unfold create_cellJ
    rw [hp]
    rfl
  rw [hstep]
  rw [show (Except.ok (notebook_to_jsonM (withCells nb (nb.cells ++ [newCellOf .code content m])))).map lastCellRunFields
        = Except.ok (lastCellRunFields (notebook_to_jsonM (withCells nb (nb.cells ++ [newCellOf .code content m])))) from rfl]
  have hlast : lastCellRunFields (notebook_to_jsonM (withCells nb (nb.cells ++ [newCellOf .code content m])))
      = some (.arr [], .null) := by
    unfold notebook_to_jsonM notebookFields lastCellRunFields withCells
    simp only [lookupJ, if_pos]
    rw [List.map_append]
    simp only [List.map_cons, List.map_nil, List.getLast?_concat]
    unfold serializeCell serializeCellFields newCellOf
    simp [optEntry, nonNullExtras, lookupD, lookupJ]
  rw [hlast]

/-- C6 witness. -/
theorem c6_create_code_defaults_witness :
    (create_cellJ (.obj [("cells", .arr []), ("metadata", .obj []),
                         ("nbformat", .int 4), ("nbformat_minor", .int 5)])
        (pys "print(1)") (pys "code") none).map lastCellRunFields
      = .ok (some (.arr [], .null)) :=
  c6_create_code_defaults _ {} (pys "print(1)") none (by rfl)

/-! ## C7: unsupported export formats -/

def xmin : Json :=
  .obj [("cells", .arr []), ("metadata", .obj []), ("nbformat", .int 4),
        ("nbformat_minor", .int 5)]

/-- C7 counterexample: the target string "PYTHON" is not in the claim's set
of seven format strings, yet conversion succeeds because the code lowercases
the target before matching; no UnsupportedFormatError is raised. -/
theorem c7_unsupported_format_counterexample :
    pys "PYTHON" ∉ supportedFormats
    ∧ convert_notebook_to_formatM (fun _ _ => []) xmin (pys "PYTHON") = .ok [] := by
  constructor
  · decide
  · rfl

/-- C7 amended: for every target string whose lowercased form is not one of
python, html, markdown, rst, latex, pdf, slides, convert fails with
UnsupportedFormatError, and convert_notebook_to_executable returns the same
error with no (path, content) write effect. -/
theorem c7_unsupported_format_amended (render : PyStr → NotebookM → PyStr)
    (x : Json) (nb : NotebookM) (fmt : PyStr) (path : Option PyStr)
    (hp : notebook_from_jsonM x = .ok nb)
    (hf : pyLower fmt ∉ supportedFormats) :
    convert_notebook_to_formatM render x fmt = .error .unsupportedFormat
    ∧ convert_notebook_to_executableM render x fmt path = .error .unsupportedFormat := by
  have h1 : convert_notebook_to_formatM render x fmt = .error .unsupportedFormat := by
    unfold convert_notebook_to_formatM
    simp only [hp]
    rw [if_neg hf]
  refine ⟨h1, ?_⟩
  unfold convert_notebook_to_executableM
  simp only [h1]

/-- C7 amended witness. -/
theorem c7_unsupported_format_amended_witness :
    convert_notebook_to_formatM (fun _ _ => []) xmin (pys "docx") = .error .unsupportedFormat
    ∧ convert_notebook_to_executableM (fun _ _ => []) xmin (pys "docx") none
        = .error .unsupportedFormat :=
  c7_unsupported_format_amended (fun _ _ => []) xmin {} (pys "docx") none (by rfl) (by decide)

/-- C10 witness: a concrete two-line edit, and the newline loss on join. -/
theorem c10_source_split_newline_loss_witness :
    (((withCells nbW (nbW.cells.set 0
          (contentEdited (nbW.cells.get ⟨0, by decide⟩) (pys "a\nb")))).cells[(0 : Int).toNat]?).map (·.source)
        = some (.list (splitNl (pys "a\nb"))))
    ∧ joinAll (splitNl (pys "a\nb")) ≠ pys "a\nb" :=
  ⟨c10_source_split_newline_loss.1 nbW _ 0 (pys "a\nb") none (by rfl),
   c10_source_split_newline_loss.2.2.2.2.2 (pys "a\nb") (by decide)⟩

/-! ## notebook_from_markdown (C5)

`re.split(r'(?m)^(#+\s.*?)$', text)`: a match starts at a line start with
one or more '#' followed by one whitespace character (which may itself be a
newline); the lazy `.*?` — whose `.` cannot cross a newline — then extends
to the nearest position where `$` holds (end of string or before a
newline).  `re.split` with one capturing group returns the text before the
first match, the captured group, the text between matches, and so on, with
the text after the last match at the end.  Scanning is left to right;
matches start only at line starts because of the `^` anchor, and the
scanner resumes after the end of each match. -/

/-- Python's `\s` on ASCII text. -/
def isWsPy (c : Char) : Bool :=
  c = ' ' || c = '\t' || c = '\n' || c = '\r' || c = '\x0b' || c = '\x0c'

/-- First position `r ≥ q` with `r = s.length` or `s[r] = '\n'` (where the
multiline `$` holds, reached by the lazy `.*?`). -/
def lineEndFrom (s : List Char) (q : Nat) : Nat :=
  q + ((s.drop q).takeWhile (fun c => c ≠ '\n')).length

/-- Length of the run of '#' characters at position p. -/
def hashRun (s : List Char) (p : Nat) : Nat :=
  ((s.drop p).takeWhile (fun c => c = '#')).length

/-- Match of `#+\s.*?$` anchored at position p (a line start); returns the
exclusive end of the captured group. -/
def matchAt (s : List Char) (p : Nat) : Option Nat :=
  if hashRun s p = 0 then none
  else
    match (s.drop (p + hashRun s p)).head? with
    | none => none
    | some c =>
      if isWsPy c then some (lineEndFrom s (p + hashRun s p + 1)) else none

/-- All matches scanning from position p; structurally recursive on fuel
(any fuel > s.length - p computes the full scan, since positions strictly
increase). -/
def findFromF (s : List Char) : Nat → Nat → List (Nat × Nat)
  | 0, _ => []
  | fuel + 1, p =>
    if p < s.length then
      match matchAt s p with
      | some e => (p, e) :: findFromF s fuel (e + 1)
      | none => findFromF s fuel (lineEndFrom s p + 1)
    else []

def reMatches (s : List Char) : List (Nat × Nat) := findFromF s (s.length + 1) 0

/-- The substring s[a:b]. -/
def strSlice (s : List Char) (a b : Nat) : List Char := (s.drop a).take (b - a)

def splitGo (s : List Char) (prev : Nat) : List (Nat × Nat) → List (List Char)
  | [] => [strSlice s prev s.length]
  | (p, e) :: rest => strSlice s prev p :: strSlice s p e :: splitGo s e rest

/-- `re.split(r'(?m)^(#+\s.*?)$', s)`. -/
def reSplitHeaders (s : List Char) : List (List Char) :=
  splitGo s 0 (reMatches s)

/-- Python `not x.strip()`: true iff every character is whitespace. -/
def strippedEmpty (cs : List Char) : Bool := cs.all isWsPy

/-- `re.match(r'^#+\s', x)`: at least one '#' then a whitespace char. -/
def headerStart (cs : List Char) : Bool :=
  decide (1 ≤ hashRun cs 0) &&
    (match (cs.drop (hashRun cs 0)).head? with
     | some c => isWsPy c
     | none => false)

/-- The while-loop over the split parts: a header part followed by another
part is combined (header + newline + content) into one cell; any other part
becomes a cell of its own. -/
def processParts : List (List Char) → List (List PyStr)
  | [] => []
  | [x] => [splitNl x]
  | x :: y :: rest =>
    if headerStart x then splitNl (x ++ '\n' :: y) :: processParts rest
    else splitNl x :: processParts (y :: rest)

/-- Each match's captured group paired with the content piece that follows
it (up to the next match, or the end of the input after the last one). -/
def groupPieces (s : List Char) : List (Nat × Nat) → List (PyStr × PyStr)
  | [] => []
  | [(p, e)] => [(strSlice s p e, strSlice s e s.length)]
  | (p, e) :: (p', e') :: rest =>
    (strSlice s p e, strSlice s e p') :: groupPieces s ((p', e') :: rest)

/-- The source line lists of the markdown cells built by
`notebook_from_markdown`: split on headers, pop a blank leading piece, fall
back to one cell holding the whole input when nothing remains. -/
def markdownCellSources (s : List Char) : List (List PyStr) :=
  match reSplitHeaders s with
  | [] => [splitNl s]
  | p0 :: rest =>
    if strippedEmpty p0 then
      match rest with
      | [] => [splitNl s]
      | _ => processParts rest
    else processParts (p0 :: rest)

def mdCellJson (src : List PyStr) : Json :=
  .obj [("cell_type", .str (pys "markdown")), ("metadata", .obj []),
        ("source", .arr (src.map .str))]

def kernelMetaJson : Json :=
  .obj [("kernelspec",
          .obj [("display_name", .str (pys "Python 3")),
                ("language", .str (pys "python")),
                ("name", .str (pys "python3"))]),
        ("language_info",
          .obj [("codemirror_mode",
                  .obj [("name", .str (pys "ipython")), ("version", .int 3)]),
                ("file_extension", .str (pys ".py")),
                ("mimetype", .str (pys "text/x-python")),
                ("name", .str (pys "python")),
                ("nbconvert_exporter", .str (pys "python")),
                ("pygments_lexer", .str (pys "ipython3")),
                ("version", .str (pys "3.8.0"))])]

/-- `notebook_from_markdown`: the raw notebook dict the Python code builds. -/
def notebook_from_markdownM (s : List Char) : Json :=
  .obj [("cells", .arr ((markdownCellSources s).map mdCellJson)),
        ("metadata", kernelMetaJson),
        ("nbformat", .int 4), ("nbformat_minor", .int 5)]

def jsonCells (y : Json) : List Json :=
  match y with
  | .obj kvs =>
    match lookupJ kvs "cells" with
    | some (.arr cs) => cs
    | _ => []
  | _ => []

def cellTypeField (c : Json) : Json :=
  match c with
  | .obj kvs => lookupD kvs "cell_type"
  | _ => .null

theorem takeWhile_length_le (p : α → Bool) (l : List α) :
    (l.takeWhile p).length ≤ l.length := by
  induction l with
  | nil => simp
  | cons x xs ih =>
    by_cases hx : p x
    · simp only [List.takeWhile_cons, hx, if_true, List.length_cons]
      omega
    · simp [List.takeWhile_cons, hx]

theorem takeWhile_boundary (p : α → Bool) (l : List α) :
    (l.takeWhile p).length = l.length
    ∨ ∃ a, l[(l.takeWhile p).length]? = some a ∧ p a = false := by
  induction l with
  | nil => left; rfl
  | cons x xs ih =>
    by_cases hx : p x
    · rcases ih with h | ⟨a, ha, hpa⟩
      · left
        simp [List.takeWhile_cons, hx, h]
      · right
        refine ⟨a, ?_, hpa⟩
        simpa [List.takeWhile_cons, hx] using ha
    · right
      refine ⟨x, ?_, by simpa using hx⟩
      simp [List.takeWhile_cons, hx]

theorem takeWhile_take_of_lt (p : α → Bool) (l : List α) (m : Nat)
    (h : (l.takeWhile p).length < m) :
    (l.take m).takeWhile p = l.takeWhile p := by
  induction l generalizing m with
  | nil => simp
  | cons x xs ih =>
    by_cases hx : p x
    · cases m with
      | zero => omega
      | succ m' =>
        simp only [List.takeWhile_cons, hx, if_true, List.length_cons] at h
        simp only [List.take_succ_cons, List.takeWhile_cons, hx, if_true]
        rw [ih m' (by omega)]
    · cases m with
      | zero => simp [List.takeWhile_cons, hx] at h
      | succ m' => simp [List.takeWhile_cons, hx]

theorem takeWhile_eq_of_take_lt (p : α → Bool) (l : List α) (m : Nat)
    (h : ((l.take m).takeWhile p).length < m) :
    l.takeWhile p = (l.take m).takeWhile p := by
  induction l generalizing m with
  | nil => simp
  | cons x xs ih =>
    cases m with
    | zero => omega
    | succ m' =>
      by_cases hx : p x
      · simp only [List.take_succ_cons, List.takeWhile_cons, hx, if_true,
                   List.length_cons] at h ⊢
        rw [ih m' (by omega)]
      · simp [List.takeWhile_cons, hx]

theorem lineEndFrom_ge (s : List Char) (q : Nat) : q ≤ lineEndFrom s q := by
  unfold lineEndFrom
  omega

theorem lineEndFrom_le (s : List Char) (q : Nat) (hq : q ≤ s.length) :
    lineEndFrom s q ≤ s.length := by
  unfold lineEndFrom
  have h1 := takeWhile_length_le (fun c => decide (c ≠ '\n')) (s.drop q)
  rw [List.length_drop] at h1
  omega

theorem lineEndFrom_end (s : List Char) (q : Nat) (hq : q ≤ s.length) :
    lineEndFrom s q = s.length ∨ s[lineEndFrom s q]? = some '\n' := by
  unfold lineEndFrom
  rcases takeWhile_boundary (fun c => decide (c ≠ '\n')) (s.drop q) with h | ⟨a, ha, hpa⟩
  · left
    rw [h, List.length_drop]
    omega
  · right
    rw [List.getElem?_drop] at ha
    have haeq : a = '\n' := by simpa using hpa
    rw [haeq] at ha
    exact ha

theorem matchAt_pos_lt (s : List Char) (p e : Nat) (h : matchAt s p = some e) :
    p < s.length := by
  unfold matchAt at h
  split at h
  · simp at h
  · rename_i hh
    by_contra hp
    push_neg at hp
    have h0 : hashRun s p = 0 := by
      unfold hashRun
      rw [List.drop_eq_nil_of_le hp]
      rfl
    exact hh h0

/-- The anatomy of a successful match: at least one '#', then an in-bounds
whitespace character, and the group ends at the next line-end position. -/
theorem matchAt_spec (s : List Char) (p e : Nat) (h : matchAt s p = some e) :
    1 ≤ hashRun s p ∧ p + hashRun s p < s.length
    ∧ (∃ c, s[p + hashRun s p]? = some c ∧ isWsPy c = true)
    ∧ e = lineEndFrom s (p + hashRun s p + 1) := by
  unfold matchAt at h
  split at h
  · simp at h
  · rename_i hh
    split at h
    · simp at h
    · rename_i c hc
      split at h
      · rename_i hws
        have he : e = lineEndFrom s (p + hashRun s p + 1) := by
          injection h with h'
          exact h'.symm
        have hlt : p + hashRun s p < s.length := by
          by_contra hx
          push_neg at hx
          rw [List.drop_eq_nil_of_le hx] at hc
          simp at hc
        refine ⟨Nat.one_le_iff_ne_zero.mpr hh, hlt, ⟨c, ?_, hws⟩, he⟩
        rw [← List.head?_drop]
        exact hc
      · simp at h

theorem matchAt_bounds (s : List Char) (p e : Nat) (h : matchAt s p = some e) :
    p + hashRun s p + 1 ≤ e ∧ e ≤ s.length ∧ (e = s.length ∨ s[e]? = some '\n') := by
  obtain ⟨hr1, hlt, ⟨c, hc, hws⟩, he⟩ := matchAt_spec s p e h
  have hq : p + hashRun s p + 1 ≤ s.length := by omega
  have hge := lineEndFrom_ge s (p + hashRun s p + 1)
  have hle := lineEndFrom_le s (p + hashRun s p + 1) hq
  have hend := lineEndFrom_end s (p + hashRun s p + 1) hq
  subst he
  exact ⟨hge, hle, hend⟩

theorem hashRun_strSlice (s : List Char) (p m : Nat)
    (h : hashRun s p < m) :
    hashRun ((s.drop p).take m) 0 = hashRun s p := by
  unfold hashRun at h ⊢
  rw [List.drop_zero]
  rw [takeWhile_take_of_lt _ _ _ h]

theorem headerStart_of_matchAt (s : List Char) (p e : Nat)
    (h : matchAt s p = some e) : headerStart (strSlice s p e) = true := by
  obtain ⟨hr1, hlt, ⟨c, hc, hws⟩, _⟩ := matchAt_spec s p e h
  obtain ⟨hge, hle, _⟩ := matchAt_bounds s p e h
  have hrm : hashRun s p < e - p := by omega
  unfold headerStart strSlice
  rw [hashRun_strSlice s p (e - p) hrm]
  rw [List.head?_drop, List.getElem?_take]
  rw [if_pos (by omega)]
  rw [List.getElem?_drop]
  rw [hc]
  simp [hr1, hws]

theorem headerStart_false_of_head_nl (t : List Char) (ht : t.head? = some '\n') :
    headerStart t = false := by
  cases t with
  | nil => simp at ht
  | cons c rest =>
    have hc : c = '\n' := by simpa using ht
    subst hc
    unfold headerStart hashRun
    simp [List.takeWhile_cons]

/-- A header-shaped prefix of the input means the regex matches at 0. -/
theorem matchAt_zero_of_headerStart_take (s : List Char) (m : Nat)
    (h : headerStart (s.take m) = true) : matchAt s 0 ≠ none := by
  unfold headerStart at h
  rw [Bool.and_eq_true] at h
  obtain ⟨h1, h2⟩ := h
  have hr1 : 1 ≤ hashRun (s.take m) 0 := by simpa using h1
  cases hc : ((s.take m).drop (hashRun (s.take m) 0)).head? with
  | none => rw [hc] at h2; simp at h2
  | some c =>
    rw [hc] at h2
    have hws : isWsPy c = true := h2
    rw [List.head?_drop, List.getElem?_take] at hc
    have hlt : hashRun (s.take m) 0 < m := by
      by_contra hx
      rw [if_neg hx] at hc
      simp at hc
    rw [if_pos hlt] at hc
    have hhr : hashRun s 0 = hashRun (s.take m) 0 := by
      unfold hashRun
      rw [List.drop_zero, List.drop_zero]
      have heq : s.takeWhile (fun c => decide (c = '#'))
          = (s.take m).takeWhile (fun c => decide (c = '#')) := by
        apply takeWhile_eq_of_take_lt
        have h' : hashRun (s.take m) 0
            = ((s.take m).takeWhile (fun c => decide (c = '#'))).length := by
          unfold hashRun
          rw [List.drop_zero]
        omega
      rw [heq]
    unfold matchAt
    rw [if_neg (by omega)]
    rw [Nat.zero_add, hhr, List.head?_drop, hc]
    simp [hws]

inductive MatchChain (s : List Char) : Nat → List (Nat × Nat) → Prop where
  | nil (p : Nat) : MatchChain s p []
  | cons (p q e : Nat) (rest : List (Nat × Nat)) (hpq : p ≤ q)
      (hm : matchAt s q = some e) (hrest : MatchChain s (e + 1) rest) :
      MatchChain s p ((q, e) :: rest)

theorem MatchChain.weaken {s : List Char} {p p' : Nat} {ms : List (Nat × Nat)}
    (hpp : p ≤ p') (h : MatchChain s p' ms) : MatchChain s p ms := by
  cases h with
  | nil => exact .nil p
  | cons _ q e rest hpq hm hrest => exact .cons p q e rest (by omega) hm hrest

theorem matchChain_findFromF (s : List Char) (fuel : Nat) : ∀ (p : Nat),
    MatchChain s p (findFromF s fuel p) := by
  induction fuel with
  | zero => intro p; exact .nil p
  | succ fuel ih =>
    intro p
    unfold findFromF
    split
    · split
      · rename_i e hm
        exact .cons p p e _ (le_refl p) hm (ih (e + 1))
      · exact (ih (lineEndFrom s p + 1)).weaken
          (by have := lineEndFrom_ge s p; omega)
    · exact .nil p

theorem processParts_groups (s : List Char) (q e : Nat) (ms : List (Nat × Nat))
    (hm : matchAt s q = some e) (hchain : MatchChain s (e + 1) ms) :
    processParts (strSlice s q e :: splitGo s e ms)
      = (groupPieces s ((q, e) :: ms)).map (fun gc => splitNl (gc.1 ++ '\n' :: gc.2)) := by
  induction ms generalizing q e with
  | nil =>
    show processParts [strSlice s q e, strSlice s e s.length] = _
    unfold processParts
    rw [if_pos (headerStart_of_matchAt s q e hm)]
    rfl
  | cons qe' rest ih =>
    obtain ⟨q', e'⟩ := qe'
    cases hchain with
    | cons _ _ _ _ hpq hm' hrest =>
      show processParts
          (strSlice s q e :: strSlice s e q' :: strSlice s q' e' :: splitGo s e' rest) = _
      unfold processParts
      rw [if_pos (headerStart_of_matchAt s q e hm)]
      rw [ih q' e' hm' hrest]
      rfl

theorem reMatches_first (s : List Char) (q e : Nat) (ms : List (Nat × Nat))
    (h : reMatches s = (q, e) :: ms) : q = 0 ∨ matchAt s 0 = none := by
  cases hm0 : matchAt s 0 with
  | none => right; rfl
  | some e0 =>
    left
    have hlen : 0 < s.length := matchAt_pos_lt s 0 e0 hm0
    have hstep : reMatches s = (0, e0) :: findFromF s s.length (e0 + 1) := by
      have h1 : reMatches s
          = if 0 < s.length then
              match matchAt s 0 with
              | some e1 => (0, e1) :: findFromF s s.length (e1 + 1)
              | none => findFromF s s.length (lineEndFrom s 0 + 1)
            else [] := rfl
      rw [h1, if_pos hlen, hm0]
    rw [hstep] at h
    have := (Prod.mk.injEq _ _ _ _).mp (List.cons_eq_cons.mp h).1
    omega

theorem strSlice_zero (s : List Char) (q : Nat) : strSlice s 0 q = s.take q := by
  unfold strSlice
  rw [List.drop_zero, Nat.sub_zero]

theorem strSlice_full (s : List Char) : strSlice s 0 s.length = s := by
  rw [strSlice_zero]
  exact List.take_length ..

theorem markdownCellSources_no_match (s : List Char) (h : reMatches s = []) :
    markdownCellSources s = [splitNl s] := by
  unfold markdownCellSources reSplitHeaders
  rw [h]
  show (match [strSlice s 0 s.length] with
        | [] => [splitNl s]
        | p0 :: rest =>
          if strippedEmpty p0 then
            match rest with
            | [] => [splitNl s]
            | _ => processParts rest
          else processParts (p0 :: rest)) = [splitNl s]
  rw [strSlice_full]
  by_cases hse : strippedEmpty s
  · simp only [hse, if_true]
  · simp only [hse, Bool.false_eq_true, if_false]
    rfl

theorem markdownCellSources_matches (s : List Char) (q e : Nat)
    (ms : List (Nat × Nat)) (h : reMatches s = (q, e) :: ms) :
    markdownCellSources s
      = (if strippedEmpty (strSlice s 0 q) then [] else [splitNl (strSlice s 0 q)])
        ++ (groupPieces s ((q, e) :: ms)).map
            (fun gc => splitNl (gc.1 ++ '\n' :: gc.2)) := by
  have hchain : MatchChain s 0 (reMatches s) := matchChain_findFromF s _ 0
  rw [h] at hchain
  cases hchain with
  | cons _ _ _ _ _ hm hrest =>
    unfold markdownCellSources reSplitHeaders
    rw [h]
    show (match strSlice s 0 q :: strSlice s q e :: splitGo s e ms with
          | [] => [splitNl s]
          | p0 :: rest =>
            if strippedEmpty p0 then
              match rest with
              | [] => [splitNl s]
              | _ => processParts rest
            else processParts (p0 :: rest)) = _
    by_cases hpre : strippedEmpty (strSlice s 0 q)
    · simp only [hpre, if_true]
      rw [processParts_groups s q e ms hm hrest]
      rfl
    · simp only [hpre, Bool.false_eq_true, if_false]
      have hq0 : matchAt s 0 = none := by
        rcases reMatches_first s q e ms h with rfl | h0
        · exfalso
          apply hpre
          rw [strSlice_zero]
          rfl
        · exact h0
      have hnh : ¬headerStart (strSlice s 0 q) = true := by
        rw [strSlice_zero]
        intro hx
        exact matchAt_zero_of_headerStart_take s q hx hq0
      show processParts (strSlice s 0 q :: strSlice s q e :: splitGo s e ms) = _
      unfold processParts
      rw [if_neg hnh]
      rw [processParts_groups s q e ms hm hrest]
      rfl

/-- C5: notebook_from_markdown splits its input at the header-line matches
of the pattern (lines beginning with '#'-runs followed by whitespace):
every produced cell is a markdown cell; when no header matches, the result
is a single cell holding the whole input split into lines; when matches
exist, the cells are exactly an optional leading cell — present iff the
text before the first match is not blank — followed by one cell per match,
each holding the header group joined by a newline with the content piece
that follows it; and the spec's example yields exactly two markdown cells,
one containing the lines "# Title" and "Body" and one containing "## Sub"
and "More".  Determinism is immediate: the embedding is a pure function of
the input string. -/
theorem c5_markdown_to_notebook :
    (∀ (s : List Char) (c : Json), c ∈ jsonCells (notebook_from_markdownM s) →
        cellTypeField c = .str (pys "markdown"))
  ∧ (∀ s : List Char, reMatches s = [] → markdownCellSources s = [splitNl s])
  ∧ (∀ (s : List Char) (q e : Nat) (ms : List (Nat × Nat)),
        reMatches s = (q, e) :: ms →
        markdownCellSources s
          = (if strippedEmpty (strSlice s 0 q) then []
             else [splitNl (strSlice s 0 q)])
            ++ (groupPieces s ((q, e) :: ms)).map
                (fun gc => splitNl (gc.1 ++ '\n' :: gc.2)))
  ∧ markdownCellSources (pys "# Title\nBody\n## Sub\nMore")
      = [[pys "# Title", pys "", pys "Body", pys ""],
         [pys "## Sub", pys "", pys "More"]] := by
  refine ⟨?_, markdownCellSources_no_match, markdownCellSources_matches, by rfl⟩
  intro s c hc
  have hcells : jsonCells (notebook_from_markdownM s)
      = (markdownCellSources s).map mdCellJson := by
    rfl
  rw [hcells] at hc
  obtain ⟨src, _, rfl⟩ := List.mem_map.mp hc
  rfl

/-- C5 witness: the hypothesis-bearing conjuncts at concrete inputs. -/
theorem c5_markdown_to_notebook_witness :
    cellTypeField (mdCellJson [pys "# T", pys "", pys "x"]) = .str (pys "markdown")
    ∧ markdownCellSources (pys "plain text, no header")
        = [splitNl (pys "plain text, no header")]
    ∧ markdownCellSources (pys "# Title\nBody\n## Sub\nMore")
        = (if strippedEmpty (strSlice (pys "# Title\nBody\n## Sub\nMore") 0 0) then []
           else [splitNl (strSlice (pys "# Title\nBody\n## Sub\nMore") 0 0)])
          ++ (groupPieces (pys "# Title\nBody\n## Sub\nMore") [(0, 7), (13, 19)]).map
              (fun gc => splitNl (gc.1 ++ '\n' :: gc.2)) :=
  ⟨c5_markdown_to_notebook.1 (pys "# T\nx") (mdCellJson [pys "# T", pys "", pys "x"])
      (by rw [show jsonCells (notebook_from_markdownM (pys "# T\nx"))
                = (markdownCellSources (pys "# T\nx")).map mdCellJson from rfl]
          rw [show markdownCellSources (pys "# T\nx")
                = [[pys "# T", pys "", pys "x"]] from rfl]
          exact List.mem_singleton.mpr rfl),
   c5_markdown_to_notebook.2.1 (pys "plain text, no header") (by rfl),
   c5_markdown_to_notebook.2.2.1 (pys "# Title\nBody\n## Sub\nMore") 0 7 [(13, 19)] (by rfl)⟩

/-! ## C1: round-trip lemmas

The round trip serialize ∘ parse is proved semantically faithful on inputs
where the model's defaults cannot materialize new fields (the
default-bearing keys are present) and no outputs entry carries keys outside
the CellOutput schema (those are dropped: CellOutput has no extra-allow
config).  Keys of each object with extra-allow are assumed unique, as
json.loads guarantees for a loaded dict. -/

theorem lookupJ_append (l1 l2 : List (String × Json)) (k : String) :
    lookupJ (l1 ++ l2) k
      = match lookupJ l1 k with
        | some v => some v
        | none => lookupJ l2 k := by
  induction l1 with
  | nil => simp [lookupJ]
  | cons kv rest ih =>
    obtain ⟨k', v⟩ := kv
    by_cases h : k' = k <;> simp [lookupJ, h, ih]

theorem lookupJ_optEntry_ne (k k' : String) (v : Option Json) (h : ¬k' = k) :
    lookupJ (optEntry k' v) k = none := by
  cases v <;> simp [optEntry, lookupJ, h]

theorem lookupJ_optEntry_self (k : String) (v : Option Json) :
    lookupJ (optEntry k v) k = v := by
  cases v <;> simp [optEntry, lookupJ]

theorem lookupJ_none_of_keys (kvs : List (String × Json)) (k : String)
    (h : ∀ kv ∈ kvs, kv.1 ≠ k) : lookupJ kvs k = none := by
  induction kvs with
  | nil => rfl
  | cons kv rest ih =>
    obtain ⟨k', v⟩ := kv
    have hk : k' ≠ k := h (k', v) (by simp)
    simp only [lookupJ, hk, if_false]
    exact ih (fun kv hkv => h kv (by simp [hkv]))

theorem lookupJ_extraFields_not_known (kvs : List (String × Json))
    (known : List String) (k : String) (hk : k ∉ known) :
    lookupJ (extraFields kvs known) k = lookupJ kvs k := by
  induction kvs with
  | nil => rfl
  | cons kv rest ih =>
    obtain ⟨k', v⟩ := kv
    unfold extraFields at ih ⊢
    simp only [decide_not] at ih ⊢
    rw [List.filter_cons]
    by_cases hkk : k' = k
    · subst hkk
      rw [if_pos (by simp [hk])]
      simp [lookupJ, ih]
    · by_cases hknown : k' ∈ known
      · rw [if_neg (by simp [hknown])]
        rw [ih]
        simp [lookupJ, hkk]
      · rw [if_pos (by simp [hknown])]
        simp [lookupJ, hkk, ih]

theorem isNullJ_eq_true (v : Json) (h : isNullJ v = true) : v = .null := by
  cases v <;> simp [isNullJ] at h ⊢

theorem lookupJ_extraFields_known (kvs : List (String × Json))
    (known : List String) (k : String) (hk : k ∈ known) :
    lookupJ (extraFields kvs known) k = none := by
  apply lookupJ_none_of_keys
  intro kv hkv hk1
  have := List.of_mem_filter hkv
  rw [hk1] at this
  simp [hk] at this

/-- The keys of an object, without duplicates (json.loads invariant). -/
def KeysNodup (kvs : List (String × Json)) : Prop :=
  (kvs.map Prod.fst).Nodup

instance (kvs : List (String × Json)) : Decidable (KeysNodup kvs) := by
  unfold KeysNodup
  infer_instance

theorem semEq_nonNullExtras (kvs : List (String × Json)) (k : String)
    (hnd : KeysNodup kvs) :
    SemEq (lookupD (nonNullExtras kvs) k) (lookupD kvs k) := by
  induction kvs with
  | nil => exact .null
  | cons kv rest ih =>
    obtain ⟨k', v⟩ := kv
    have hnd' : KeysNodup rest := by
      unfold KeysNodup at hnd ⊢
      simp only [List.map_cons, List.nodup_cons] at hnd
      exact hnd.2
    unfold nonNullExtras at ih ⊢
    rw [List.filter_cons]
    by_cases hv : isNullJ v
    · rw [if_neg (by simp [hv])]
      by_cases hkk : k' = k
      · subst hkk
        have hveq := isNullJ_eq_true v hv
        subst hveq
        have h1 : lookupJ (rest.filter (fun kv => !isNullJ kv.2)) k' = none := by
          apply lookupJ_none_of_keys
          intro kv2 hkv2 hc
          unfold KeysNodup at hnd
          simp only [List.map_cons, List.nodup_cons] at hnd
          exact hnd.1 (hc ▸ List.mem_map_of_mem Prod.fst (List.mem_of_mem_filter hkv2))
        rw [show lookupD (rest.filter (fun kv => !isNullJ kv.2)) k' = .null from by
              rw [lookupD, h1]; rfl]
        rw [show lookupD ((k', Json.null) :: rest) k' = .null from by
              simp [lookupD, lookupJ]]
        exact .null
      · rw [show lookupD ((k', v) :: rest) k = lookupD rest k from by
              simp [lookupD, lookupJ, hkk]]
        exact ih hnd'
    · rw [if_pos (by simp [hv])]
      by_cases hkk : k' = k
      · subst hkk
        rw [show lookupD ((k', v) :: rest.filter (fun kv => !isNullJ kv.2)) k' = v from by
              simp [lookupD, lookupJ]]
        rw [show lookupD ((k', v) :: rest) k' = v from by
              simp [lookupD, lookupJ]]
        exact semEq_refl v
      · rw [show lookupD ((k', v) :: rest.filter (fun kv => !isNullJ kv.2)) k
              = lookupD (rest.filter (fun kv => !isNullJ kv.2)) k from by
              simp [lookupD, lookupJ, hkk]]
        rw [show lookupD ((k', v) :: rest) k = lookupD rest k from by
              simp [lookupD, lookupJ, hkk]]
        exact ih hnd'

theorem parseList_forall₂ (f : Json → Option α) (es : List Json) (rs : List α)
    (h : parseList f es = some rs) :
    List.Forall₂ (fun e r => f e = some r) es rs := by
  induction es generalizing rs with
  | nil =>
    unfold parseList at h
    injection h with h'
    subst h'
    exact .nil
  | cons e es' ih =>
    unfold parseList at h
    cases hf : f e with
    | none => rw [hf] at h; simp at h
    | some a =>
      rw [hf] at h
      cases hp : parseList f es' with
      | none => rw [hp] at h; simp at h
      | some as' =>
        rw [hp] at h
        injection h with h'
        subst h'
        exact .cons hf (ih as' hp)

theorem forall₂_map_eq (g : α → Json) (f : Json → Option α)
    (hrt : ∀ e r, f e = some r → g r = e) :
    ∀ {es : List Json} {rs : List α},
      List.Forall₂ (fun e r => f e = some r) es rs → rs.map g = es := by
  intro es rs h
  induction h with
  | nil => rfl
  | cons hf _ ih => simp [List.map_cons, hrt _ _ hf, ih]

theorem forall₂_semEq_map (g : α → Json) (P : Json → Prop) (f : Json → Option α)
    (hsem : ∀ e r, f e = some r → P e → SemEq (g r) e) :
    ∀ {es : List Json} {rs : List α},
      List.Forall₂ (fun e r => f e = some r) es rs →
      (∀ e ∈ es, P e) →
      List.Forall₂ SemEq (rs.map g) es := by
  intro es rs h
  induction h with
  | nil => intro _; exact .nil
  | cons hf _ ih =>
    intro hP
    exact .cons (hsem _ _ hf (hP _ (by simp)))
      (ih (fun e he => hP e (by simp [he])))

theorem asObj_rt (v : Json) (m : List (String × Json)) (h : asObj v = some m) :
    Json.obj m = v := by
  cases v <;> simp [asObj] at h
  rw [h]

theorem asStr_rt (v : Json) (s : PyStr) (h : asStr v = some s) :
    Json.str s = v := by
  cases v <;> simp [asStr] at h
  rw [h]

theorem asInt_rt (v : Json) (n : Int) (h : asInt v = some n) :
    Json.int n = v := by
  cases v <;> simp [asInt] at h
  rw [h]

theorem asSource_rt (v : Json) (src : Source) (h : asSource v = some src) :
    sourceToJson src = v := by
  cases v with
  | str s =>
    simp only [asSource] at h
    injection h with h'
    subst h'
    rfl
  | arr es =>
    simp only [asSource] at h
    cases hp : parseList asStr es with
    | none => rw [hp] at h; simp at h
    | some ss =>
      rw [hp] at h
      simp only [Option.map_some'] at h
      injection h with h'
      subst h'
      show Json.arr (ss.map Json.str) = Json.arr es
      rw [forall₂_map_eq Json.str asStr asStr_rt (parseList_forall₂ asStr es ss hp)]
  | null => simp [asSource] at h
  | bool b => simp [asSource] at h
  | int n => simp [asSource] at h
  | obj kvs => simp [asSource] at h

theorem asStrList_rt (v : Json) (ts : List PyStr) (h : asStrList v = some ts) :
    Json.arr (ts.map Json.str) = v := by
  cases v <;> simp [asStrList] at h
  rename_i es
  rw [forall₂_map_eq Json.str asStr asStr_rt (parseList_forall₂ asStr es ts h)]

theorem parseAuthor_fold_rt (kvs : List (String × Json)) (a : List (String × PyStr))
    (h : kvs.foldr (fun kv acc => do
          let s ← asStr kv.2
          let rest ← acc
          some ((kv.1, s) :: rest)) (some []) = some a) :
    a.map (fun kv => (kv.1, Json.str kv.2)) = kvs := by
  induction kvs generalizing a with
  | nil =>
    simp at h
    subst h
    rfl
  | cons kv rest ih =>
    obtain ⟨k, v⟩ := kv
    simp only [List.foldr_cons] at h
    cases hs : asStr v with
    | none => rw [hs] at h; simp at h
    | some s =>
      rw [hs] at h
      cases hr : rest.foldr (fun kv acc => do
          let s ← asStr kv.2
          let rest ← acc
          some ((kv.1, s) :: rest)) (some []) with
      | none => rw [hr] at h; simp at h
      | some a' =>
        rw [hr] at h
        simp only [Option.bind_eq_bind, Option.some_bind] at h
        injection h with h'
        subst h'
        simp [List.map_cons, asStr_rt v s hs, ih a' hr]

theorem parseAuthor_rt (v : Json) (a : List (String × PyStr))
    (h : parseAuthor v = some a) : serializeAuthor a = v := by
  unfold parseAuthor at h
  cases v with
  | obj kvs =>
    simp only [asObj, Option.bind_eq_bind, Option.some_bind] at h
    unfold serializeAuthor
    rw [parseAuthor_fold_rt kvs a h]
  | null => simp [asObj] at h
  | bool b => simp [asObj] at h
  | int n => simp [asObj] at h
  | str s => simp [asObj] at h
  | arr es => simp [asObj] at h

theorem semEq_of_eq {a b : Json} (h : a = b) : SemEq a b := by
  rw [h]
  exact semEq_refl b

theorem semEq_optNullable (kvs : List (String × Json)) (k : String)
    (f : Json → Option α) (g : α → Json)
    (hfg : ∀ v a, lookupJ kvs k = some v → f v = some a → SemEq (g a) v)
    (r : Option α) (h : optNullable kvs k f = some r) :
    SemEq ((r.map g).getD .null) (lookupD kvs k) := by
  unfold optNullable at h
  split at h
  · rename_i hl
    injection h with h'
    subst h'
    rw [show lookupD kvs k = .null from by rw [lookupD, hl]; rfl]
    exact .null
  · rename_i v hl
    split at h
    · rename_i hv
      injection h with h'
      subst h'
      rw [show lookupD kvs k = .null from by
            rw [lookupD, hl, isNullJ_eq_true v hv]; rfl]
      exact .null
    · rename_i hv
      cases hf : f v with
      | none => rw [hf] at h; simp at h
      | some a =>
        rw [hf] at h
        simp only [Option.map_some'] at h
        injection h with h'
        subst h'
        rw [show lookupD kvs k = v from by rw [lookupD, hl]; rfl]
        simp only [Option.map_some', Option.getD_some]
        exact hfg v a hl hf

theorem outFields_output_type (o : CellOutputM) :
    lookupD (serializeOutputFields o) "output_type" = .str o.output_type := by
  simp [serializeOutputFields, lookupD, lookupJ]

theorem outFields_metadata (o : CellOutputM) :
    lookupD (serializeOutputFields o) "metadata"
      = (o.metadata.map Json.obj).getD .null := by
  cases h : o.metadata <;>
    simp [serializeOutputFields, lookupD, lookupJ_append, lookupJ_optEntry_ne,
          lookupJ_optEntry_self, lookupJ, h]

theorem outFields_data (o : CellOutputM) :
    lookupD (serializeOutputFields o) "data" = (o.data.map Json.obj).getD .null := by
  cases h : o.data <;>
    simp [serializeOutputFields, lookupD, lookupJ_append, lookupJ_optEntry_ne,
          lookupJ_optEntry_self, lookupJ, h]

theorem outFields_text (o : CellOutputM) :
    lookupD (serializeOutputFields o) "text"
      = (o.text.map sourceToJson).getD .null := by
  cases h : o.text <;>
    simp [serializeOutputFields, lookupD, lookupJ_append, lookupJ_optEntry_ne,
          lookupJ_optEntry_self, lookupJ, h]

theorem outFields_execution_count (o : CellOutputM) :
    lookupD (serializeOutputFields o) "execution_count"
      = (o.execution_count.map Json.int).getD .null := by
  cases h : o.execution_count <;>
    simp [serializeOutputFields, lookupD, lookupJ_append, lookupJ_optEntry_ne,
          lookupJ_optEntry_self, lookupJ, h]

theorem outFields_traceback (o : CellOutputM) :
    lookupD (serializeOutputFields o) "traceback"
      = (o.traceback.map (fun ts => Json.arr (ts.map Json.str))).getD .null := by
  cases h : o.traceback <;>
    simp [serializeOutputFields, lookupD, lookupJ_append, lookupJ_optEntry_ne,
          lookupJ_optEntry_self, lookupJ, h]

theorem outFields_name (o : CellOutputM) :
    lookupD (serializeOutputFields o) "name" = (o.name.map Json.str).getD .null := by
  cases h : o.name <;>
    simp [serializeOutputFields, lookupD, lookupJ_append, lookupJ_optEntry_ne,
          lookupJ_optEntry_self, lookupJ, h]

theorem outFields_ename (o : CellOutputM) :
    lookupD (serializeOutputFields o) "ename" = (o.ename.map Json.str).getD .null := by
  cases h : o.ename <;>
    simp [serializeOutputFields, lookupD, lookupJ_append, lookupJ_optEntry_ne,
          lookupJ_optEntry_self, lookupJ, h]

theorem outFields_evalue (o : CellOutputM) :
    lookupD (serializeOutputFields o) "evalue" = (o.evalue.map Json.str).getD .null := by
  cases h : o.evalue <;>
    simp [serializeOutputFields, lookupD, lookupJ_append, lookupJ_optEntry_ne,
          lookupJ_optEntry_self, lookupJ, h]

theorem outFields_unknown (o : CellOutputM) (k : String) (hk : k ∉ knownOutputKeys) :
    lookupD (serializeOutputFields o) k = .null := by
  simp only [knownOutputKeys, List.mem_cons, List.not_mem_nil, or_false,
             not_or] at hk
  obtain ⟨h1, h2, h3, h4, h5, h6, h7, h8, h9⟩ := hk
  have h1' : ¬"output_type" = k := fun hh => h1 hh.symm
  have h2' : ¬"metadata" = k := fun hh => h2 hh.symm
  have h3' : ¬"data" = k := fun hh => h3 hh.symm
  have h4' : ¬"text" = k := fun hh => h4 hh.symm
  have h5' : ¬"execution_count" = k := fun hh => h5 hh.symm
  have h6' : ¬"traceback" = k := fun hh => h6 hh.symm
  have h7' : ¬"name" = k := fun hh => h7 hh.symm
  have h8' : ¬"ename" = k := fun hh => h8 hh.symm
  have h9' : ¬"evalue" = k := fun hh => h9 hh.symm
  simp [serializeOutputFields, lookupD, lookupJ_append, lookupJ,
        lookupJ_optEntry_ne, h1', h2', h3', h4', h5', h6', h7', h8', h9']

/-- The side condition for a faithful output round trip: the "metadata" key
is present (else the model default `{}` materializes a new field) and only
schema keys occur (extras are dropped: CellOutput has no extra-allow). -/
def outCond (j : Json) : Bool :=
  match j with
  | .obj kvs =>
    (lookupJ kvs "metadata").isSome
      && kvs.all (fun kv => decide (kv.1 ∈ knownOutputKeys))
  | _ => true

theorem semEq_mdField (kvs : List (String × Json)) (r : Option (List (String × Json)))
    (hpres : (lookupJ kvs "metadata").isSome)
    (h : (match lookupJ kvs "metadata" with
          | none => some (some [])
          | some v => if isNullJ v then some none else (asObj v).map some) = some r) :
    SemEq ((r.map Json.obj).getD .null) (lookupD kvs "metadata") := by
  split at h
  · rename_i hl
    rw [hl] at hpres
    simp at hpres
  · rename_i v hl
    split at h
    · rename_i hv
      injection h with h'
      subst h'
      rw [show lookupD kvs "metadata" = .null from by
            rw [lookupD, hl, isNullJ_eq_true v hv]; rfl]
      exact .null
    · rename_i hv
      cases ho : asObj v with
      | none => rw [ho] at h; simp at h
      | some m =>
        rw [ho] at h
        simp only [Option.map_some'] at h
        injection h with h'
        subst h'
        rw [show lookupD kvs "metadata" = v from by rw [lookupD, hl]; rfl]
        simp only [Option.map_some', Option.getD_some]
        exact semEq_of_eq (asObj_rt v m ho)

/-- Round trip of one outputs entry, under `outCond`. -/
theorem outputRT (j : Json) (o : CellOutputM)
    (hp : parseOutput j = some o) (hc : outCond j = true) :
    SemEq (serializeOutput o) j := by
  unfold parseOutput at hp
  simp only [Option.bind_eq_bind, Option.bind_eq_some, Option.some.injEq] at hp
  obtain ⟨kvs, hkvs, ot, hot, md, hmd, dt, hdt, tx, htx, ec, hec, tb, htb,
          nm, hnm, en, hen, ev, hev, hp⟩ := hp
  subst hp
  rw [← asObj_rt j kvs hkvs] at hc ⊢
  simp only [outCond, Bool.and_eq_true] at hc
  obtain ⟨hpres, hall⟩ := hc
  refine SemEq.obj ?_
  intro k
  by_cases hk1 : k = "output_type"
  · subst hk1
    rw [outFields_output_type]
    obtain ⟨v, hv, hsv⟩ := hot
    rw [show lookupD kvs "output_type" = v from by rw [lookupD, hv]; rfl]
    exact semEq_of_eq (asStr_rt v ot hsv)
  · by_cases hk2 : k = "metadata"
    · subst hk2
      rw [outFields_metadata]
      exact semEq_mdField kvs md hpres hmd
    · by_cases hk3 : k = "data"
      · subst hk3
        rw [outFields_data]
        exact semEq_optNullable kvs "data" asObj Json.obj
          (fun v a _ hv => semEq_of_eq (asObj_rt v a hv)) dt hdt
      · by_cases hk4 : k = "text"
        · subst hk4
          rw [outFields_text]
          exact semEq_optNullable kvs "text" asSource sourceToJson
            (fun v a _ hv => semEq_of_eq (asSource_rt v a hv)) tx htx
        · by_cases hk5 : k = "execution_count"
          · subst hk5
            rw [outFields_execution_count]
            exact semEq_optNullable kvs "execution_count" asInt Json.int
              (fun v a _ hv => semEq_of_eq (asInt_rt v a hv)) ec hec
          · by_cases hk6 : k = "traceback"
            · subst hk6
              rw [outFields_traceback]
              exact semEq_optNullable kvs "traceback" asStrList
                (fun ts => Json.arr (ts.map Json.str))
                (fun v a _ hv => semEq_of_eq (asStrList_rt v a hv)) tb htb
            · by_cases hk7 : k = "name"
              · subst hk7
                rw [outFields_name]
                exact semEq_optNullable kvs "name" asStr Json.str
                  (fun v a _ hv => semEq_of_eq (asStr_rt v a hv)) nm hnm
              · by_cases hk8 : k = "ename"
                · subst hk8
                  rw [outFields_ename]
                  exact semEq_optNullable kvs "ename" asStr Json.str
                    (fun v a _ hv => semEq_of_eq (asStr_rt v a hv)) en hen
                · by_cases hk9 : k = "evalue"
                  · subst hk9
                    rw [outFields_evalue]
                    exact semEq_optNullable kvs "evalue" asStr Json.str
                      (fun v a _ hv => semEq_of_eq (asStr_rt v a hv)) ev hev
                  · have hkn : k ∉ knownOutputKeys := by
                      simp [knownOutputKeys, hk1, hk2, hk3, hk4, hk5, hk6, hk7,
                            hk8, hk9]
                    rw [outFields_unknown _ k hkn]
                    rw [show lookupD kvs k = .null from by
                          rw [lookupD, lookupJ_none_of_keys kvs k ?hnone]; rfl
                          case hnone =>
                            intro kv hkv hc
                            have := List.all_eq_true.mp hall kv hkv
                            rw [hc] at this
                            exact hkn (by simpa using this)]
                    exact .null

theorem parseCellType_rt (v : Json) (ct : CellType) (h : parseCellType v = some ct) :
    Json.str (cellTypeStr ct) = v := by
  cases v with
  | str s =>
    simp only [parseCellType] at h
    split at h
    · rename_i h1
      injection h with h'
      subst h'
      rw [h1]
      rfl
    · split at h
      · rename_i h2
        injection h with h'
        subst h'
        rw [h2]
        rfl
      · split at h
        · rename_i h3
          injection h with h'
          subst h'
          rw [h3]
          rfl
        · simp at h
  | null => simp [parseCellType] at h
  | bool b => simp [parseCellType] at h
  | int n => simp [parseCellType] at h
  | arr es => simp [parseCellType] at h
  | obj kvs => simp [parseCellType] at h

theorem lookupJ_nonNullExtras_known (kvs : List (String × Json))
    (known : List String) (k : String) (hk : k ∈ known) :
    lookupJ (nonNullExtras (extraFields kvs known)) k = none := by
  apply lookupJ_none_of_keys
  intro kv hkv hc
  have h1 := List.mem_of_mem_filter hkv
  have h2 := List.of_mem_filter h1
  rw [hc] at h2
  simp [hk] at h2

theorem keysNodup_extraFields (kvs : List (String × Json)) (known : List String)
    (h : KeysNodup kvs) : KeysNodup (extraFields kvs known) := by
  unfold KeysNodup at h ⊢
  exact h.sublist ((List.filter_sublist kvs).map Prod.fst)

theorem cellFields_cell_type (c : CellM) :
    lookupD (serializeCellFields c) "cell_type" = .str (cellTypeStr c.cell_type) := by
  simp [serializeCellFields, lookupD, lookupJ]

theorem cellFields_metadata (c : CellM) :
    lookupD (serializeCellFields c) "metadata" = .obj c.metadata := by
  simp [serializeCellFields, lookupD, lookupJ]

theorem cellFields_source (c : CellM) :
    lookupD (serializeCellFields c) "source" = sourceToJson c.source := by
  simp [serializeCellFields, lookupD, lookupJ]

theorem cellFields_outputs (c : CellM)
    (hx : lookupJ (nonNullExtras c.extra) "outputs" = none) :
    lookupD (serializeCellFields c) "outputs"
      = (c.outputs.map (fun os => Json.arr (os.map serializeOutput))).getD .null := by
  cases h : c.outputs <;>
    simp [serializeCellFields, lookupD, lookupJ_append, lookupJ_optEntry_ne,
          lookupJ_optEntry_self, lookupJ, h, hx]

theorem cellFields_execution_count (c : CellM)
    (hx : lookupJ (nonNullExtras c.extra) "execution_count" = none) :
    lookupD (serializeCellFields c) "execution_count"
      = (c.execution_count.map Json.int).getD .null := by
  cases h : c.execution_count <;>
    simp [serializeCellFields, lookupD, lookupJ_append, lookupJ_optEntry_ne,
          lookupJ_optEntry_self, lookupJ, h, hx]

theorem cellFields_unknown (c : CellM) (k : String) (hk : k ∉ knownCellKeys) :
    lookupD (serializeCellFields c) k = lookupD (nonNullExtras c.extra) k := by
  simp only [knownCellKeys, List.mem_cons, List.not_mem_nil, or_false,
             not_or] at hk
  obtain ⟨h1, h2, h3, h4, h5⟩ := hk
  have h1' : ¬"cell_type" = k := fun hh => h1 hh.symm
  have h2' : ¬"metadata" = k := fun hh => h2 hh.symm
  have h3' : ¬"source" = k := fun hh => h3 hh.symm
  have h4' : ¬"outputs" = k := fun hh => h4 hh.symm
  have h5' : ¬"execution_count" = k := fun hh => h5 hh.symm
  simp [serializeCellFields, lookupD, lookupJ_append, lookupJ,
        lookupJ_optEntry_ne, h1', h2', h3', h4', h5']

/-- The side condition for a faithful cell round trip: per-cell "metadata"
present, unique keys, and well-conditioned outputs entries. -/
def cellCond (j : Json) : Bool :=
  match j with
  | .obj kvs =>
    (lookupJ kvs "metadata").isSome
      && decide (KeysNodup kvs)
      && (match lookupJ kvs "outputs" with
          | some (.arr es) => es.all outCond
          | _ => true)
  | _ => true

/-- Round trip of one cell, under `cellCond`. -/
theorem cellRT (j : Json) (c : CellM)
    (hp : parseCell j = some c) (hc : cellCond j = true) :
    SemEq (serializeCell c) j := by
  unfold parseCell at hp
  simp only [Option.bind_eq_bind, Option.bind_eq_some, Option.some.injEq] at hp
  obtain ⟨kvs, hkvs, ct, hct, md, hmd, src, hsrc, outs, houts, ec, hec, hp⟩ := hp
  subst hp
  rw [← asObj_rt j kvs hkvs] at hc ⊢
  simp only [cellCond, Bool.and_eq_true] at hc
  obtain ⟨⟨hpres, hnd⟩, houtc⟩ := hc
  have hnd' : KeysNodup kvs := of_decide_eq_true hnd
  refine SemEq.obj ?_
  intro k
  by_cases hk1 : k = "cell_type"
  · subst hk1
    rw [cellFields_cell_type]
    obtain ⟨v, hv, hpv⟩ := hct
    rw [show lookupD kvs "cell_type" = v from by rw [lookupD, hv]; rfl]
    exact semEq_of_eq (parseCellType_rt v ct hpv)
  · by_cases hk2 : k = "metadata"
    · subst hk2
      rw [cellFields_metadata]
      split at hmd
      · rename_i hl
        rw [hl] at hpres
        simp at hpres
      · rename_i v hl
        rw [show lookupD kvs "metadata" = v from by rw [lookupD, hl]; rfl]
        exact semEq_of_eq (asObj_rt v md hmd)
    · by_cases hk3 : k = "source"
      · subst hk3
        rw [cellFields_source]
        obtain ⟨v, hv, hsv⟩ := hsrc
        rw [show lookupD kvs "source" = v from by rw [lookupD, hv]; rfl]
        exact semEq_of_eq (asSource_rt v src hsv)
      · by_cases hk4 : k = "outputs"
        · subst hk4
          rw [cellFields_outputs _ (lookupJ_nonNullExtras_known kvs knownCellKeys
                "outputs" (by simp [knownCellKeys]))]
          refine semEq_optNullable kvs "outputs" _
            (fun os => Json.arr (os.map serializeOutput)) ?_ outs houts
          intro v a hl hfv
          cases v with
          | arr es =>
            refine SemEq.arr ?_
            refine forall₂_semEq_map serializeOutput (fun e => outCond e = true)
              parseOutput outputRT (parseList_forall₂ parseOutput es a hfv) ?_
            rw [hl] at houtc
            exact fun e he => List.all_eq_true.mp houtc e he
          | null => simp at hfv
          | bool b => simp at hfv
          | int n => simp at hfv
          | str s => simp at hfv
          | obj kvs2 => simp at hfv
        · by_cases hk5 : k = "execution_count"
          · subst hk5
            rw [cellFields_execution_count _ (lookupJ_nonNullExtras_known kvs
                  knownCellKeys "execution_count" (by simp [knownCellKeys]))]
            exact semEq_optNullable kvs "execution_count" asInt Json.int
              (fun v a _ hv => semEq_of_eq (asInt_rt v a hv)) ec hec
          · have hkn : k ∉ knownCellKeys := by
              simp [knownCellKeys, hk1, hk2, hk3, hk4, hk5]
            rw [cellFields_unknown _ k hkn]
            have hstep := semEq_nonNullExtras (extraFields kvs knownCellKeys) k
              (keysNodup_extraFields kvs knownCellKeys hnd')
            rw [show lookupD (extraFields kvs knownCellKeys) k = lookupD kvs k from by
                  rw [lookupD, lookupJ_extraFields_not_known kvs knownCellKeys k hkn]
                  rfl] at hstep
            exact hstep

theorem metaFields_kernelspec (m : NbMetaM)
    (hx : lookupJ (nonNullExtras m.extra) "kernelspec" = none) :
    lookupD (serializeMetaFields m) "kernelspec"
      = (m.kernelspec.map Json.obj).getD .null := by
  cases h : m.kernelspec <;>
    simp [serializeMetaFields, lookupD, lookupJ_append, lookupJ_optEntry_ne,
          lookupJ_optEntry_self, lookupJ, h, hx]

theorem metaFields_language_info (m : NbMetaM)
    (hx : lookupJ (nonNullExtras m.extra) "language_info" = none) :
    lookupD (serializeMetaFields m) "language_info"
      = (m.language_info.map Json.obj).getD .null := by
  cases h : m.language_info <;>
    simp [serializeMetaFields, lookupD, lookupJ_append, lookupJ_optEntry_ne,
          lookupJ_optEntry_self, lookupJ, h, hx]

theorem metaFields_authors (m : NbMetaM)
    (hx : lookupJ (nonNullExtras m.extra) "authors" = none) :
    lookupD (serializeMetaFields m) "authors"
      = (m.authors.map (fun as' => Json.arr (as'.map serializeAuthor))).getD .null := by
  cases h : m.authors <;>
    simp [serializeMetaFields, lookupD, lookupJ_append, lookupJ_optEntry_ne,
          lookupJ_optEntry_self, lookupJ, h, hx]

theorem metaFields_title (m : NbMetaM)
    (hx : lookupJ (nonNullExtras m.extra) "title" = none) :
    lookupD (serializeMetaFields m) "title" = (m.title.map Json.str).getD .null := by
  cases h : m.title <;>
    simp [serializeMetaFields, lookupD, lookupJ_append, lookupJ_optEntry_ne,
          lookupJ_optEntry_self, lookupJ, h, hx]

theorem metaFields_description (m : NbMetaM)
    (hx : lookupJ (nonNullExtras m.extra) "description" = none) :
    lookupD (serializeMetaFields m) "description"
      = (m.description.map Json.str).getD .null := by
  cases h : m.description <;>
    simp [serializeMetaFields, lookupD, lookupJ_append, lookupJ_optEntry_ne,
          lookupJ_optEntry_self, lookupJ, h, hx]

theorem metaFields_tags (m : NbMetaM)
    (hx : lookupJ (nonNullExtras m.extra) "tags" = none) :
    lookupD (serializeMetaFields m) "tags"
      = (m.tags.map (fun ts => Json.arr (ts.map Json.str))).getD .null := by
  cases h : m.tags <;>
    simp [serializeMetaFields, lookupD, lookupJ_append, lookupJ_optEntry_ne,
          lookupJ_optEntry_self, lookupJ, h, hx]

theorem metaFields_unknown (m : NbMetaM) (k : String) (hk : k ∉ knownMetaKeys) :
    lookupD (serializeMetaFields m) k = lookupD (nonNullExtras m.extra) k := by
  simp only [knownMetaKeys, List.mem_cons, List.not_mem_nil, or_false,
             not_or] at hk
  obtain ⟨h1, h2, h3, h4, h5, h6⟩ := hk
  have h1' : ¬"kernelspec" = k := fun hh => h1 hh.symm
  have h2' : ¬"language_info" = k := fun hh => h2 hh.symm
  have h3' : ¬"authors" = k := fun hh => h3 hh.symm
  have h4' : ¬"title" = k := fun hh => h4 hh.symm
  have h5' : ¬"description" = k := fun hh => h5 hh.symm
  have h6' : ¬"tags" = k := fun hh => h6 hh.symm
  simp [serializeMetaFields, lookupD, lookupJ_append, lookupJ,
        lookupJ_optEntry_ne, h1', h2', h3', h4', h5', h6']

/-- The side condition for a faithful metadata round trip: unique keys. -/
def metaCond (j : Json) : Bool :=
  match j with
  | .obj kvs => decide (KeysNodup kvs)
  | _ => true

/-- Round trip of the notebook metadata, under `metaCond`. -/
theorem metaRT (j : Json) (m : NbMetaM)
    (hp : parseMeta j = some m) (hc : metaCond j = true) :
    SemEq (serializeMeta m) j := by
  unfold parseMeta at hp
  simp only [Option.bind_eq_bind, Option.bind_eq_some, Option.some.injEq] at hp
  obtain ⟨kvs, hkvs, ks, hks, li, hli, au, hau, ti, hti, de, hde, tg, htg, hp⟩ := hp
  subst hp
  rw [← asObj_rt j kvs hkvs] at hc ⊢
  simp only [metaCond] at hc
  have hnd : KeysNodup kvs := of_decide_eq_true hc
  refine SemEq.obj ?_
  intro k
  by_cases hk1 : k = "kernelspec"
  · subst hk1
    rw [metaFields_kernelspec _ (lookupJ_nonNullExtras_known kvs knownMetaKeys
          "kernelspec" (by simp [knownMetaKeys]))]
    exact semEq_optNullable kvs "kernelspec" asObj Json.obj
      (fun v a _ hv => semEq_of_eq (asObj_rt v a hv)) ks hks
  · by_cases hk2 : k = "language_info"
    · subst hk2
      rw [metaFields_language_info _ (lookupJ_nonNullExtras_known kvs knownMetaKeys
            "language_info" (by simp [knownMetaKeys]))]
      exact semEq_optNullable kvs "language_info" asObj Json.obj
        (fun v a _ hv => semEq_of_eq (asObj_rt v a hv)) li hli
    · by_cases hk3 : k = "authors"
      · subst hk3
        rw [metaFields_authors _ (lookupJ_nonNullExtras_known kvs knownMetaKeys
              "authors" (by simp [knownMetaKeys]))]
        refine semEq_optNullable kvs "authors" _
          (fun as' => Json.arr (as'.map serializeAuthor)) ?_ au hau
        intro v a _ hfv
        cases v with
        | arr es =>
          refine semEq_of_eq ?_
          show Json.arr (a.map serializeAuthor) = Json.arr es
          rw [forall₂_map_eq serializeAuthor parseAuthor parseAuthor_rt
                (parseList_forall₂ parseAuthor es a hfv)]
        | null => simp at hfv
        | bool b => simp at hfv
        | int n => simp at hfv
        | str s => simp at hfv
        | obj kvs2 => simp at hfv
      · by_cases hk4 : k = "title"
        · subst hk4
          rw [metaFields_title _ (lookupJ_nonNullExtras_known kvs knownMetaKeys
                "title" (by simp [knownMetaKeys]))]
          exact semEq_optNullable kvs "title" asStr Json.str
            (fun v a _ hv => semEq_of_eq (asStr_rt v a hv)) ti hti
        · by_cases hk5 : k = "description"
          · subst hk5
            rw [metaFields_description _ (lookupJ_nonNullExtras_known kvs
                  knownMetaKeys "description" (by simp [knownMetaKeys]))]
            exact semEq_optNullable kvs "description" asStr Json.str
              (fun v a _ hv => semEq_of_eq (asStr_rt v a hv)) de hde
          · by_cases hk6 : k = "tags"
            · subst hk6
              rw [metaFields_tags _ (lookupJ_nonNullExtras_known kvs knownMetaKeys
                    "tags" (by simp [knownMetaKeys]))]
              exact semEq_optNullable kvs "tags" asStrList
                (fun ts => Json.arr (ts.map Json.str))
                (fun v a _ hv => semEq_of_eq (asStrList_rt v a hv)) tg htg
            · have hkn : k ∉ knownMetaKeys := by
                simp [knownMetaKeys, hk1, hk2, hk3, hk4, hk5, hk6]
              rw [metaFields_unknown _ k hkn]
              have hstep := semEq_nonNullExtras (extraFields kvs knownMetaKeys) k
                (keysNodup_extraFields kvs knownMetaKeys hnd)
              rw [show lookupD (extraFields kvs knownMetaKeys) k = lookupD kvs k from by
                    rw [lookupD, lookupJ_extraFields_not_known kvs knownMetaKeys k hkn]
                    rfl] at hstep
              exact hstep

theorem nbFields_cells (nb : NotebookM) :
    lookupD (notebookFields nb) "cells" = .arr (nb.cells.map serializeCell) := by
  simp [notebookFields, lookupD, lookupJ]

theorem nbFields_metadata (nb : NotebookM) :
    lookupD (notebookFields nb) "metadata" = serializeMeta nb.metadata := by
  simp [notebookFields, lookupD, lookupJ]

theorem nbFields_nbformat (nb : NotebookM) :
    lookupD (notebookFields nb) "nbformat" = .int nb.nbformat := by
  simp [notebookFields, lookupD, lookupJ]

theorem nbFields_nbformat_minor (nb : NotebookM) :
    lookupD (notebookFields nb) "nbformat_minor" = .int nb.nbformat_minor := by
  simp [notebookFields, lookupD, lookupJ]

theorem nbFields_unknown (nb : NotebookM) (k : String) (hk : k ∉ knownNotebookKeys) :
    lookupD (notebookFields nb) k = lookupD (nonNullExtras nb.extra) k := by
  simp only [knownNotebookKeys, List.mem_cons, List.not_mem_nil, or_false,
             not_or] at hk
  obtain ⟨h1, h2, h3, h4⟩ := hk
  have h1' : ¬"cells" = k := fun hh => h1 hh.symm
  have h2' : ¬"metadata" = k := fun hh => h2 hh.symm
  have h3' : ¬"nbformat" = k := fun hh => h3 hh.symm
  have h4' : ¬"nbformat_minor" = k := fun hh => h4 hh.symm
  simp [notebookFields, lookupD, lookupJ_append, lookupJ, h1', h2', h3', h4']

/-- The side condition for the amended round-trip claim (C1): the
default-bearing top-level keys are present, keys are unique where extra
fields are kept, every cell satisfies `cellCond`, and the metadata object
has unique keys.  All of this holds for a canonical notebook JSON file. -/
def c1_cond (j : Json) : Bool :=
  match j with
  | .obj kvs =>
    (lookupJ kvs "cells").isSome && (lookupJ kvs "metadata").isSome
      && (lookupJ kvs "nbformat").isSome && (lookupJ kvs "nbformat_minor").isSome
      && decide (KeysNodup kvs)
      && (match lookupJ kvs "cells" with
          | some (.arr es) => es.all cellCond
          | _ => true)
      && (match lookupJ kvs "metadata" with
          | some v => metaCond v
          | none => true)
  | _ => false

/-- Round trip of the whole notebook, under `c1_cond`. -/
theorem notebookRT (j : Json) (nb : NotebookM)
    (hp : parseNotebook j = some nb) (hc : c1_cond j = true) :
    SemEq (notebook_to_jsonM nb) j := by
  unfold parseNotebook at hp
  simp only [Option.bind_eq_bind, Option.bind_eq_some, Option.some.injEq] at hp
  obtain ⟨kvs, hkvs, cells, hcells, md, hmd, nf, hnf, nfm, hnfm, hp⟩ := hp
  subst hp
  rw [← asObj_rt j kvs hkvs] at hc ⊢
  simp only [c1_cond, Bool.and_eq_true] at hc
  obtain ⟨⟨⟨⟨⟨⟨hc1, hc2⟩, hc3⟩, hc4⟩, hnd⟩, hcellc⟩, hmetac⟩ := hc
  have hnd' : KeysNodup kvs := of_decide_eq_true hnd
  refine SemEq.obj ?_
  intro k
  by_cases hk1 : k = "cells"
  · subst hk1
    rw [nbFields_cells]
    split at hcells
    · rename_i hl
      rw [hl] at hc1
      simp at hc1
    · rename_i es hl
      rw [show lookupD kvs "cells" = .arr es from by rw [lookupD, hl]; rfl]
      refine SemEq.arr ?_
      refine forall₂_semEq_map serializeCell (fun e => cellCond e = true)
        parseCell cellRT (parseList_forall₂ parseCell es cells hcells) ?_
      rw [hl] at hcellc
      exact fun e he => List.all_eq_true.mp hcellc e he
    · rename_i hl hne
      simp at hcells
  · by_cases hk2 : k = "metadata"
    · subst hk2
      rw [nbFields_metadata]
      split at hmd
      · rename_i hl
        rw [hl] at hc2
        simp at hc2
      · rename_i v hl
        rw [show lookupD kvs "metadata" = v from by rw [lookupD, hl]; rfl]
        rw [hl] at hmetac
        exact metaRT v md hmd hmetac
    · by_cases hk3 : k = "nbformat"
      · subst hk3
        rw [nbFields_nbformat]
        split at hnf
        · rename_i hl
          rw [hl] at hc3
          simp at hc3
        · rename_i v hl
          rw [show lookupD kvs "nbformat" = v from by rw [lookupD, hl]; rfl]
          exact semEq_of_eq (asInt_rt v nf hnf)
      · by_cases hk4 : k = "nbformat_minor"
        · subst hk4
          rw [nbFields_nbformat_minor]
          split at hnfm
          · rename_i hl
            rw [hl] at hc4
            simp at hc4
          · rename_i v hl
            rw [show lookupD kvs "nbformat_minor" = v from by rw [lookupD, hl]; rfl]
            exact semEq_of_eq (asInt_rt v nfm hnfm)
        · have hkn : k ∉ knownNotebookKeys := by
            simp [knownNotebookKeys, hk1, hk2, hk3, hk4]
          rw [nbFields_unknown _ k hkn]
          have hstep := semEq_nonNullExtras (extraFields kvs knownNotebookKeys) k
            (keysNodup_extraFields kvs knownNotebookKeys hnd')
          rw [show lookupD (extraFields kvs knownNotebookKeys) k = lookupD kvs k from by
                rw [lookupD, lookupJ_extraFields_not_known kvs knownNotebookKeys k hkn]
                rfl] at hstep
          exact hstep

/-- Extracts, from a notebook JSON value, the value of the unknown key
"custom" inside the first outputs entry of the first cell. -/
def firstOutputCustom (j : Json) : Option Json :=
  match j with
  | .obj kvs =>
    match lookupJ kvs "cells" with
    | some (.arr (c :: _)) =>
      match c with
      | .obj cf =>
        match lookupJ cf "outputs" with
        | some (.arr (o :: _)) =>
          match o with
          | .obj os => lookupJ os "custom"
          | _ => none
        | _ => none
      | _ => none
    | _ => none
  | _ => none

/-- A well-formed notebook JSON whose single cell has an outputs entry
carrying the unknown key "custom" (the `CellOutput` pydantic model has no
extra-allow configuration, so this key is dropped on parse). -/
def xC1 : Json :=
  .obj [("cells", .arr [.obj
          [("cell_type", .str (pys "code")),
           ("metadata", .obj []),
           ("source", .arr [.str (pys "x=1")]),
           ("outputs", .arr [.obj
             [("output_type", .str (pys "stream")),
              ("metadata", .obj []),
              ("custom", .int 1)]])]]),
        ("metadata", .obj []),
        ("nbformat", .int 4),
        ("nbformat_minor", .int 5)]

/-- A well-formed notebook JSON with unknown keys at the top level
("banner"), inside the cell ("myext") and inside the metadata ("shop"). -/
def xC1w : Json :=
  .obj [("cells", .arr [.obj
          [("cell_type", .str (pys "code")),
           ("metadata", .obj []),
           ("source", .arr [.str (pys "x=1")]),
           ("outputs", .arr [.obj
             [("output_type", .str (pys "stream")),
              ("metadata", .obj []),
              ("name", .str (pys "stdout")),
              ("text", .str (pys "hi"))]]),
           ("myext", .int 7)]]),
        ("metadata", .obj [("title", .str (pys "T")),
                           ("shop", .str (pys "S"))]),
        ("nbformat", .int 4),
        ("nbformat_minor", .int 5),
        ("banner", .str (pys "B"))]

/-- The model that parsing `xC1w` produces. -/
def nbC1w : NotebookM :=
  { cells := [{ cell_type := .code,
                metadata := [],
                source := .list [pys "x=1"],
                outputs := some [{ output_type := pys "stream",
                                   metadata := some [],
                                   name := some (pys "stdout"),
                                   text := some (.str (pys "hi")) }],
                execution_count := none,
                extra := [("myext", .int 7)] }],
    metadata := { title := some (pys "T"),
                  extra := [("shop", .str (pys "S"))] },
    nbformat := 4,
    nbformat_minor := 5,
    extra := [("banner", .str (pys "B"))] }

